import Mathlib

/-!
Verification development for the qast library: a shallow embedding of the
tokenizer, parser, complexity guard, validator and backend compilers
(Prisma, SQL/Drizzle, TypeORM finalizer), together with theorems checking
the natural-language specification against the code.

Conventions of the embedding:
* JavaScript numbers never take part in arithmetic in the verified claims;
  a numeric literal is modelled by its scanned decimal form `JsNum`
  (sign, integer part, fraction digits), which is exact for every literal
  the tokenizer accepts.
* Fallible code is modelled with `Except`; the distinct error classes of
  the library (TokenizationError, ParseError, ValidationError,
  QueryComplexityError) are constructors of `QastError`.
* Recursive descent and envelope rewriting use an explicit fuel parameter
  that decreases at every call; entry points supply fuel that is ample for
  the input (a fuel-exhaustion error is a distinct, never-ok outcome).
-/

namespace Qast

/-- Character constants used by the tokenizer and the SQL builder. -/
def chDQ : Char := Char.ofNat 34

def chSQ : Char := Char.ofNat 39

def chBS : Char := Char.ofNat 92

def chLP : Char := Char.ofNat 40

def chRP : Char := Char.ofNat 41

def chLB : Char := Char.ofNat 91

def chRB : Char := Char.ofNat 93

def chComma : Char := Char.ofNat 44

def chDot : Char := Char.ofNat 46

def chDollar : Char := Char.ofNat 36

def chMinus : Char := Char.ofNat 45

def chUnd : Char := Char.ofNat 95

def chPct : Char := Char.ofNat 37

def chNL : Char := Char.ofNat 10

def chTab : Char := Char.ofNat 9

def chCR : Char := Char.ofNat 13

/-- Decimal form of a JavaScript number literal as scanned by the
tokenizer: sign, integer part, fraction digits.  The claims only carry
numbers around, they never compute with them, so this exact decimal
representation is a faithful model of the parsed `parseFloat` value. -/
structure JsNum where
  neg : Bool
  ip : Nat
  frac : List Nat
  deriving DecidableEq, Repr

/-- Primitive values of the query language (string literals, numbers,
booleans, null), mirroring `string | number | boolean | null`. -/
inductive Prim where
  | str (s : String)
  | num (n : JsNum)
  | bool (b : Bool)
  | null
  deriving DecidableEq, Repr

/-- Values attached to a comparison: a primitive or an ordered list of
primitives.  A `between` range is, at runtime, a 2-element array, exactly
as in the TypeScript source where `QastRangeValue` is an array type. -/
inductive QastValue where
  | prim (p : Prim)
  | arr (xs : List Prim)
  deriving DecidableEq, Repr

/-- The twelve comparison operators (`src/types/ast.ts`).  `in` is a Lean
keyword, so that constructor is named `inOp`. -/
inductive Operator where
  | eq
  | ne
  | gt
  | lt
  | gte
  | lte
  | inOp
  | notIn
  | contains
  | startsWith
  | endsWith
  | between
  deriving DecidableEq, Repr

/-- Printable name of an operator, as used in error messages and in the
tokenizer keyword table values. -/
def opName : Operator → String
  | .eq => "eq"
  | .ne => "ne"
  | .gt => "gt"
  | .lt => "lt"
  | .gte => "gte"
  | .lte => "lte"
  | .inOp => "in"
  | .notIn => "notIn"
  | .contains => "contains"
  | .startsWith => "startsWith"
  | .endsWith => "endsWith"
  | .between => "between"

/-- Token types of the tokenizer (`TokenType` enum). -/
inductive TokenType where
  | IDENTIFIER
  | OPERATOR
  | VALUE
  | LOGICAL_OP
  | PAREN_OPEN
  | PAREN_CLOSE
  | BRACKET_OPEN
  | BRACKET_CLOSE
  | COMMA
  | EOF
  deriving DecidableEq, Repr

/-- Payload of a token.  In TypeScript this is one untagged union; here the
three shapes that actually occur are distinguished (a raw string for
identifiers, logical keywords and punctuation; an operator for OPERATOR
tokens; a query value for VALUE tokens). -/
inductive TokValue where
  | str (s : String)
  | oper (o : Operator)
  | val (v : QastValue)
  deriving DecidableEq, Repr

/-- A token: type, value and source position. -/
structure Token where
  type : TokenType
  value : TokValue
  position : Nat
  deriving DecidableEq, Repr

/-- The error classes of the library as one tagged type (TokenizationError,
ParseError, ValidationError, QueryComplexityError). -/
inductive QastError where
  | tokenization (msg : String) (pos : Nat)
  | parseErr (msg : String)
  | validation (msg : String)
  | complexity (msg : String)
  deriving DecidableEq, Repr

/-- Fuel-driven digit expansion (the fuel bounds the number of digits and
is always ample at the call site, so this is total decimal rendering). -/
def natDigitsAux : Nat → Nat → List Char
  | 0, _ => []
  | fuel + 1, n =>
    if n < 10 then [Char.ofNat (48 + n)]
    else natDigitsAux fuel (n / 10) ++ [Char.ofNat (48 + n % 10)]

/-- Decimal digits of a natural number, most significant first (model of
JavaScript number-to-string for naturals). -/
def natDigits (n : Nat) : List Char := natDigitsAux (n + 1) n

/-- Decimal string of a natural number. -/
def natStr (n : Nat) : String := String.mk (natDigits n)

/-- Decimal string of an integer. -/
def intStr (i : Int) : String :=
  if i < 0 then "-" ++ natStr i.natAbs else natStr i.natAbs

/-- JavaScript `\w` character class (ASCII letters, digits, underscore). -/
def isWordChar (c : Char) : Bool := c.isAlphanum || c == chUnd

/-- Characters allowed in identifiers by `readIdentifier`: `\w`, `_`, `.`,
`[`, `]` (dotted and indexed field paths). -/
def isIdentChar (c : Char) : Bool :=
  isWordChar c || c == chUnd || c == chDot || c == chLB || c == chRB

/-- Word test on a possibly-missing character; `undefined` coalesces to the
empty string in the source, which the `\w` test rejects. -/
def isWordCharOpt : Option Char → Bool
  | some c => isWordChar c
  | none => false

/-- Digit test on a possibly-missing character. -/
def isDigitOpt : Option Char → Bool
  | some c => c.isDigit
  | none => false

/-- Skip whitespace, advancing the position (`skipWhitespace`). -/
def skipWs : List Char → Nat → List Char × Nat
  | [], p => ([], p)
  | c :: cs, p => if c.isWhitespace then skipWs cs (p + 1) else (c :: cs, p)

/-- Take the longest prefix satisfying a predicate, returning it with the
rest of the input. -/
def spanC (f : Char → Bool) : List Char → List Char × List Char
  | [] => ([], [])
  | c :: cs =>
    if f c then
      let r := spanC f cs
      (c :: r.1, r.2)
    else ([], c :: cs)

/-- Escape letter for newline. -/
def chNLsrc : Char := Char.ofNat 110

/-- Escape letter for tab. -/
def chTabSrc : Char := Char.ofNat 116

/-- Escape letter for carriage return. -/
def chCRsrc : Char := Char.ofNat 114

/-- Body of `readString`: already past the opening quote, collecting
characters with backslash escapes for n, t, r, the backslash and the
enclosing quote (`sp` is the position just after the opening quote). -/
def readStrAux (q : Char) (sp : Nat) (acc : List Char) :
    List Char → Nat → Bool → Except QastError (String × List Char × Nat)
  | [], _, _ => .error (.tokenization ("Unterminated string literal") (sp - 1))
  | c :: cs, p, true =>
    let d :=
      if c == chNLsrc then chNL
      else if c == chTabSrc then chTab
      else if c == chCRsrc then chCR
      else if c == chBS then chBS
      else if c == q then q
      else c
    readStrAux q sp (acc ++ [d]) cs (p + 1) false
  | c :: cs, p, false =>
    if c == chBS then readStrAux q sp acc cs (p + 1) true
    else if c == q then .ok (String.mk acc, cs, p + 1)
    else readStrAux q sp (acc ++ [c]) cs (p + 1) false

/-- Scan of `readNumber` past the optional sign: digits with at most one
dot; stops at a second dot. -/
def numSpan : List Char → Bool → List Char × List Char
  | [], _ => ([], [])
  | c :: cs, hasDec =>
    if c.isDigit then
      let r := numSpan cs hasDec
      (c :: r.1, r.2)
    else if c == chDot then
      if hasDec then ([], c :: cs)
      else
        let r := numSpan cs true
        (c :: r.1, r.2)
    else ([], c :: cs)

/-- Numeric value of a decimal digit character. -/
def digitVal (c : Char) : Nat := c.toNat - 48

/-- Fold a digit list into a natural number. -/
def digitsToNat (ds : List Char) : Nat :=
  ds.foldl (fun a c => a * 10 + digitVal c) 0

/-- Model of `parseFloat` restricted to the exact shapes `readNumber`
scans (optional sign, digits, at most one dot): `none` is NaN.  The value
is kept in decimal form, so it is exact. -/
def parseFloatM (neg : Bool) (ds : List Char) : Option JsNum :=
  let ip := ds.takeWhile Char.isDigit
  let rest := ds.dropWhile Char.isDigit
  match rest with
  | [] => if ip.isEmpty then none else some ⟨neg, digitsToNat ip, []⟩
  | _ :: fs =>
    if ip.isEmpty && fs.isEmpty then none
    else some ⟨neg, digitsToNat ip, fs.map digitVal⟩

/-- `readNumber`: optional leading minus, digits, at most one dot; a NaN
result of `parseFloat` raises a lexical error. -/
def readNumberC (cs : List Char) (p : Nat) :
    Except QastError (JsNum × List Char × Nat) :=
  let neg := cs.head? == some chMinus
  let cs0 := if neg then cs.tail else cs
  let r := numSpan cs0 false
  let consumed := (if neg then 1 else 0) + r.1.length
  match parseFloatM neg r.1 with
  | some jn => .ok (jn, r.2, p + consumed)
  | none => .error (.tokenization ("Invalid number") p)

/-- `readBoolean`: reads an identifier and accepts `true`/`false`
case-insensitively, else a lexical error. -/
def readBooleanC (cs : List Char) (p : Nat) :
    Except QastError (Bool × List Char × Nat) :=
  let r := spanC isIdentChar cs
  let lower := String.mk (r.1.map Char.toLower)
  if lower == "true" then .ok (true, r.2, p + r.1.length)
  else if lower == "false" then .ok (false, r.2, p + r.1.length)
  else .error (.tokenization ("Expected boolean value") p)

/-- `readNull`: accepts the whole word `null` case-insensitively. -/
def readNullC (cs : List Char) (p : Nat) :
    Except QastError (List Char × Nat) :=
  let four := (cs.take 4).map Char.toLower
  if four == String.data ("null") && !isWordCharOpt (cs.get? 4) then
    .ok (cs.drop 4, p + 4)
  else .error (.tokenization ("Expected null literal") p)

/-- Loop body of `readArray`, already past the opening bracket.  Mirrors
the source: leading whitespace, a closing bracket ends the array, an
element is a string, number, boolean or null literal, elements are
separated by commas; end of input inside the loop head silently ends the
array (the `while` guard), end of input after an element is an error. -/
def readArrayLoop : Nat → List Char → Nat → List Prim →
    Except QastError (List Prim × List Char × Nat)
  | 0, _, p, _ => .error (.tokenization ("Array scan fuel exhausted") p)
  | fuel + 1, cs, p, acc =>
    let w := skipWs cs p
    match w.1 with
    | [] => .ok (acc, [], w.2)
    | c :: rest =>
      if c == chRB then .ok (acc, rest, w.2 + 1)
      else
        let low4 := (w.1.take 4).map Char.toLower
        let low5 := (w.1.take 5).map Char.toLower
        let step : Except QastError (Prim × List Char × Nat) :=
          if c == chDQ || c == chSQ then
            match readStrAux c (w.2 + 1) [] rest (w.2 + 1) false with
            | .ok (s, cs2, p2) => .ok (.str s, cs2, p2)
            | .error e => .error e
          else if c.isDigit || (c == chMinus && isDigitOpt rest.head?) then
            match readNumberC w.1 w.2 with
            | .ok (n, cs2, p2) => .ok (.num n, cs2, p2)
            | .error e => .error e
          else if c.toLower == Char.ofNat 116 && low4 == String.data ("true") then
            match readBooleanC w.1 w.2 with
            | .ok (b, cs2, p2) => .ok (.bool b, cs2, p2)
            | .error e => .error e
          else if c.toLower == Char.ofNat 102 && low5 == String.data ("false") then
            match readBooleanC w.1 w.2 with
            | .ok (b, cs2, p2) => .ok (.bool b, cs2, p2)
            | .error e => .error e
          else if c.toLower == Char.ofNat 110 && low4 == String.data ("null") then
            match readNullC w.1 w.2 with
            | .ok (cs2, p2) => .ok (.null, cs2, p2)
            | .error e => .error e
          else .error (.tokenization ("Unexpected character in array") w.2)
        match step with
        | .error e => .error e
        | .ok (v, cs2, p2) =>
          let w2 := skipWs cs2 p2
          match w2.1 with
          | [] => .error (.tokenization ("Expected comma or bracket in array") w2.2)
          | d :: rest2 =>
            if d == chRB then .ok (acc ++ [v], rest2, w2.2 + 1)
            else if d == chComma then readArrayLoop fuel rest2 (w2.2 + 1) (acc ++ [v])
            else .error (.tokenization ("Expected comma or bracket in array") w2.2)

/-- Keyword table of the twelve operators, in source order; keys are the
lowercase spellings used by the longest-match scan. -/
def opKeywords : List (String × Operator) :=
  [("eq", .eq), ("ne", .ne), ("gt", .gt), ("lt", .lt), ("gte", .gte),
   ("lte", .lte), ("in", .inOp), ("notin", .notIn), ("contains", .contains),
   ("startswith", .startsWith), ("endswith", .endsWith), ("between", .between)]

/-- Logical keyword table. -/
def logicalKeywords : List String := ["and", "or", "not"]

/-- Keyword match at the head of the lowered input: the keyword is a
prefix and is not followed by a word character. -/
def keywordAt (low : List Char) (kw : List Char) : Bool :=
  low.take kw.length == kw && !isWordCharOpt (low.get? kw.length)

/-- First operator keyword matching at the head of the input. -/
def matchKeywordOp (cs : List Char) : Option (Operator × Nat) :=
  let low := cs.map Char.toLower
  opKeywords.findSome? fun kv =>
    if keywordAt low kv.1.data then some (kv.2, kv.1.length) else none

/-- First logical keyword matching at the head of the input. -/
def matchKeywordLogical (cs : List Char) : Option (String × Nat) :=
  let low := cs.map Char.toLower
  logicalKeywords.findSome? fun kw =>
    if keywordAt low kw.data then some (kw, kw.length) else none

/-- `nextToken`: whitespace, then operator keywords, logical keywords,
parentheses, arrays, commas, strings, numbers, whole-word booleans and
null, identifiers; anything else is a lexical error. -/
def nextTokenC (cs : List Char) (p : Nat) :
    Except QastError (Token × List Char × Nat) :=
  let w := skipWs cs p
  match w.1 with
  | [] => .ok (⟨.EOF, .str (""), w.2⟩, [], w.2)
  | c :: rest =>
    match matchKeywordOp w.1 with
    | some (o, len) => .ok (⟨.OPERATOR, .oper o, w.2⟩, w.1.drop len, w.2 + len)
    | none =>
      match matchKeywordLogical w.1 with
      | some (s, len) =>
        .ok (⟨.LOGICAL_OP, .str s, w.2⟩, w.1.drop len, w.2 + len)
      | none =>
        if c == chLP then .ok (⟨.PAREN_OPEN, .str ("("), w.2⟩, rest, w.2 + 1)
        else if c == chRP then .ok (⟨.PAREN_CLOSE, .str (")"), w.2⟩, rest, w.2 + 1)
        else if c == chLB then
          match readArrayLoop (rest.length + 1) rest (w.2 + 1) [] with
          | .ok (xs, cs2, p2) => .ok (⟨.VALUE, .val (.arr xs), w.2⟩, cs2, p2)
          | .error e => .error e
        else if c == chComma then .ok (⟨.COMMA, .str (","), w.2⟩, rest, w.2 + 1)
        else if c == chDQ || c == chSQ then
          match readStrAux c (w.2 + 1) [] rest (w.2 + 1) false with
          | .ok (s, cs2, p2) => .ok (⟨.VALUE, .val (.prim (.str s)), w.2⟩, cs2, p2)
          | .error e => .error e
        else if c.isDigit || (c == chMinus && isDigitOpt rest.head?) then
          match readNumberC w.1 w.2 with
          | .ok (n, cs2, p2) => .ok (⟨.VALUE, .val (.prim (.num n)), w.2⟩, cs2, p2)
          | .error e => .error e
        else if c.toLower == Char.ofNat 116 &&
            (w.1.take 4).map Char.toLower == String.data ("true") &&
            !isWordCharOpt (w.1.get? 4) then
          match readBooleanC w.1 w.2 with
          | .ok (b, cs2, p2) => .ok (⟨.VALUE, .val (.prim (.bool b)), w.2⟩, cs2, p2)
          | .error e => .error e
        else if c.toLower == Char.ofNat 102 &&
            (w.1.take 5).map Char.toLower == String.data ("false") &&
            !isWordCharOpt (w.1.get? 5) then
          match readBooleanC w.1 w.2 with
          | .ok (b, cs2, p2) => .ok (⟨.VALUE, .val (.prim (.bool b)), w.2⟩, cs2, p2)
          | .error e => .error e
        else if c.toLower == Char.ofNat 110 &&
            (w.1.take 4).map Char.toLower == String.data ("null") &&
            !isWordCharOpt (w.1.get? 4) then
          match readNullC w.1 w.2 with
          | .ok (cs2, p2) => .ok (⟨.VALUE, .val (.prim .null), w.2⟩, cs2, p2)
          | .error e => .error e
        else if isWordChar c || c == chUnd then
          let r := spanC isIdentChar w.1
          .ok (⟨.IDENTIFIER, .str (String.mk r.1), w.2⟩, r.2, w.2 + r.1.length)
        else .error (.tokenization ("Unexpected character") w.2)

/-- `tokenize`: collect tokens until EOF, including the EOF token. -/
def tokenizeLoop : Nat → List Char → Nat → List Token →
    Except QastError (List Token)
  | 0, _, p, _ => .error (.tokenization ("Tokenizer fuel exhausted") p)
  | fuel + 1, cs, p, acc =>
    match nextTokenC cs p with
    | .error e => .error e
    | .ok (t, cs2, p2) =>
      if t.type == .EOF then .ok (acc ++ [t])
      else tokenizeLoop fuel cs2 p2 (acc ++ [t])

/-- Tokenize a query string. -/
def tokenize (s : String) : Except QastError (List Token) :=
  tokenizeLoop (s.data.length + 1) s.data 0 []

/-- Logical operator kinds (`AND | OR`). -/
inductive LogicalOperator where
  | AND
  | OR
  deriving DecidableEq, Repr

/-- The AST: comparison leaves, binary logical nodes and unary NOT nodes
(`QastNode` in `src/types/ast.ts`). -/
inductive QastNode where
  | comparison (field : String) (op : Operator) (value : QastValue)
  | logical (lop : LogicalOperator) (left : QastNode) (right : QastNode)
  | not (child : QastNode)
  deriving DecidableEq, Repr

/-- The cast `value as string` on a token payload (a no-op at runtime;
the fallback is unreachable for tokenizer-produced tokens). -/
def asString : TokValue → String
  | .str s => s
  | _ => ""

/-- The cast `value as Operator` on an OPERATOR token payload. -/
def asOperator : TokValue → Operator
  | .oper o => o
  | _ => .eq

/-- The raw value of a VALUE token. -/
def asValue : TokValue → QastValue
  | .val v => v
  | .str s => .prim (.str s)
  | .oper o => .prim (.str (opName o))

/-- `checkLogical`: the current token is a LOGICAL_OP whose string value
lowercases to the given keyword. -/
def isLogicalTok (ts : List Token) (v : String) : Bool :=
  match ts with
  | t :: _ =>
    t.type == .LOGICAL_OP &&
      (match t.value with
       | .str s => String.mk (s.data.map Char.toLower) == v
       | _ => false)
  | [] => false

/-- The current token has the given type. -/
def isTypeTok (ts : List Token) (ty : TokenType) : Bool :=
  match ts with
  | t :: _ => t.type == ty
  | [] => false

/-- The value is an array. -/
def isArrValue : QastValue → Bool
  | .arr _ => true
  | _ => false

/-- The value is a 2-element array. -/
def isArr2Value : QastValue → Bool
  | .arr xs => xs.length == 2
  | _ => false

/-- `normalizeValue`: a `between` array is padded to exactly two entries,
a missing entry becoming null; every other value is returned unchanged.
(The non-array `between` case is unreachable: the parser has already
rejected it.) -/
def normalizeValue (op : Operator) (v : QastValue) : QastValue :=
  match op, v with
  | .between, .arr xs => .arr [xs.getD 0 Prim.null, xs.getD 1 Prim.null]
  | .between, other => other
  | _, other => other

/-- `parseFactor`: IDENTIFIER OPERATOR VALUE, with the structural checks
that `in`/`notIn` take an array and `between` takes a 2-element array. -/
def parseFactorE (ts : List Token) : Except QastError (QastNode × List Token) :=
  match ts with
  | t1 :: ts1 =>
    if t1.type == .IDENTIFIER then
      let field := asString t1.value
      match ts1 with
      | t2 :: ts2 =>
        if t2.type == .OPERATOR then
          let op := asOperator t2.value
          match ts2 with
          | t3 :: ts3 =>
            if t3.type == .VALUE then
              let v := asValue t3.value
              if (op == .inOp || op == .notIn) && !isArrValue v then
                .error (.parseErr ("Operator " ++ opName op ++ " requires an array value"))
              else if op == .between && !isArr2Value v then
                .error (.parseErr ("Operator between requires an array with exactly two values"))
              else .ok (.comparison field op (normalizeValue op v), ts3)
            else .error (.parseErr ("Expected value"))
          | [] => .error (.parseErr ("Expected value"))
        else
          .error (.parseErr ("Expected operator"))
      | [] => .error (.parseErr ("Expected operator"))
    else .error (.parseErr ("Expected field name (identifier)"))
  | [] => .error (.parseErr ("Expected field name (identifier)"))

/-- `expect(PAREN_CLOSE)`. -/
def expectCloseParen (ts : List Token) : Except QastError (List Token) :=
  match ts with
  | t :: rest =>
    if t.type == .PAREN_CLOSE then .ok rest
    else .error (.parseErr ("Expected closing parenthesis"))
  | [] => .error (.parseErr ("Expected closing parenthesis"))

/-- The mutually recursive entry points of the recursive-descent parser,
as one mode type: `orE`/`andE`/`notE`/`termE` are `parseOrExpression`,
`parseAndExpression`, `parseNotExpression` and `parseTerm`; `orL`/`andL`
are the while-loops inside the first two, carrying the node built so
far. -/
inductive PMode where
  | orE
  | orL (acc : QastNode)
  | andE
  | andL (acc : QastNode)
  | notE
  | termE
  deriving Repr

/-- One fuel-indexed function for the whole recursive descent; the fuel
decreases at every call and the entry point supplies ample fuel, so the
fuel-exhausted error is unreachable from the public entry points. -/
def parseStep : Nat → PMode → List Token → Except QastError (QastNode × List Token)
  | 0, _, _ => .error (.parseErr ("Parser fuel exhausted"))
  | fuel + 1, m, ts =>
    match m with
    | .orE =>
      match parseStep fuel .andE ts with
      | .ok (n, ts1) => parseStep fuel (.orL n) ts1
      | .error e => .error e
    | .orL n =>
      if isLogicalTok ts ("or") then
        match parseStep fuel .andE ts.tail with
        | .ok (r, ts1) => parseStep fuel (.orL (.logical .OR n r)) ts1
        | .error e => .error e
      else .ok (n, ts)
    | .andE =>
      match parseStep fuel .notE ts with
      | .ok (n, ts1) => parseStep fuel (.andL n) ts1
      | .error e => .error e
    | .andL n =>
      if isLogicalTok ts ("and") then
        match parseStep fuel .notE ts.tail with
        | .ok (r, ts1) => parseStep fuel (.andL (.logical .AND n r)) ts1
        | .error e => .error e
      else .ok (n, ts)
    | .notE =>
      if isLogicalTok ts ("not") then
        match parseStep fuel .notE ts.tail with
        | .ok (c, ts1) => .ok (.not c, ts1)
        | .error e => .error e
      else parseStep fuel .termE ts
    | .termE =>
      if isTypeTok ts .PAREN_OPEN then
        match parseStep fuel .orE ts.tail with
        | .ok (n, ts1) =>
          match expectCloseParen ts1 with
          | .ok ts2 => .ok (n, ts2)
          | .error e => .error e
        | .error e => .error e
      else parseFactorE ts

/-- `Parser.parse`: reject the empty token stream, parse one expression,
require only EOF to remain. -/
def parserParse (ts : List Token) : Except QastError QastNode :=
  if ts.length == 1 && isTypeTok ts .EOF then
    .error (.parseErr ("Empty query string"))
  else
    match parseStep (4 * ts.length + 8) .orE ts with
    | .error e => .error e
    | .ok (n, rest) =>
      match rest with
      | [] => .ok n
      | t :: _ =>
        if t.type == .EOF then .ok n
        else .error (.parseErr ("Unexpected token. Expected end of query."))

/-- `parseQueryString`: tokenize then parse. -/
def parseQueryString (s : String) : Except QastError QastNode :=
  match tokenize s with
  | .ok ts => parserParse ts
  | .error e => .error e

/-- The three metrics of the complexity guard. -/
structure ComplexityStats where
  depth : Nat
  nodes : Nat
  clauses : Nat
  deriving DecidableEq, Repr

/-- Configured limits (`maxDepth`, `maxNodes`, `maxClauses`), each
optional; the caller supplies plain JavaScript numbers, modelled as
integers. -/
structure ComplexityLimits where
  maxDepth : Option Int
  maxNodes : Option Int
  maxClauses : Option Int
  deriving DecidableEq, Repr

/-- `calculateStats`: single post-order traversal computing depth, total
node count and comparison-clause count. -/
def calculateStats : QastNode → ComplexityStats
  | .comparison _ _ _ => ⟨1, 1, 1⟩
  | .not c =>
    let s := calculateStats c
    ⟨s.depth + 1, s.nodes + 1, s.clauses⟩
  | .logical _ l r =>
    let a := calculateStats l
    let b := calculateStats r
    ⟨max a.depth b.depth + 1, a.nodes + b.nodes + 1, a.clauses + b.clauses⟩

/-- Third check of `enforceQueryComplexity` (clause count). -/
def enforceClauses (stats : ComplexityStats) (limits : ComplexityLimits) :
    Except QastError Unit :=
  match limits.maxClauses with
  | some m =>
    if (stats.clauses : Int) > m then
      .error (.complexity ("Query exceeds maximum clause count of " ++ intStr m ++
        " (received " ++ natStr stats.clauses ++ ")"))
    else .ok ()
  | none => .ok ()

/-- Second check of `enforceQueryComplexity` (node count). -/
def enforceNodes (stats : ComplexityStats) (limits : ComplexityLimits) :
    Except QastError Unit :=
  match limits.maxNodes with
  | some m =>
    if (stats.nodes : Int) > m then
      .error (.complexity ("Query exceeds maximum node count of " ++ intStr m ++
        " (received " ++ natStr stats.nodes ++ ")"))
    else enforceClauses stats limits
  | none => enforceClauses stats limits

/-- `enforceQueryComplexity`: each configured limit is compared
independently against the measured statistics, in the order depth, nodes,
clauses; the first strictly exceeded limit raises a
QueryComplexityError. -/
def enforceQueryComplexity (ast : QastNode) (limits : ComplexityLimits) :
    Except QastError Unit :=
  let stats := calculateStats ast
  match limits.maxDepth with
  | some d =>
    if (stats.depth : Int) > d then
      .error (.complexity ("Query exceeds maximum depth of " ++ intStr d ++
        " (received depth " ++ natStr stats.depth ++ ")"))
    else enforceNodes stats limits
  | none => enforceNodes stats limits

/-- Primitive field types of the schema. -/
inductive FieldPrimitiveType where
  | string
  | number
  | boolean
  | date
  | datetime
  | enum
  | uuid
  | json
  deriving DecidableEq, Repr

/-- Schema entry for one field (`FieldTypeDefinition`). -/
structure FieldTypeDefinition where
  type : FieldPrimitiveType
  allowNull : Option Bool
  acceptsArrays : Option Bool
  enumValues : Option (List Prim)
  validator : Option (QastValue → Bool)

/-- Whitelist options handed to the validator. -/
structure WhitelistOptions where
  allowedFields : Option (List String)
  allowedOperators : Option (List Operator)
  fieldTypes : Option (List (String × FieldTypeDefinition))

/-- Split a character list at every occurrence of a separator character
(model of the JavaScript `split` with a one-character separator). -/
def splitOnChar (sep : Char) : List Char → List (List Char)
  | [] => [[]]
  | c :: cs =>
    match splitOnChar sep cs with
    | s :: rest => if c == sep then [] :: s :: rest else (c :: s) :: rest
    | [] => [[c]]

/-- Lowercase hexadecimal digit. -/
def isHexDigit (c : Char) : Bool :=
  c.isDigit || (97 ≤ c.toNat && c.toNat ≤ 102)

/-- The canonical UUID v1 to v5 pattern of the validator, modelled
directly from its regular expression. -/
def isUuid (s : String) : Bool :=
  let cs := s.data.map Char.toLower
  match splitOnChar chMinus cs with
  | [a, b, c, d, e] =>
    a.length == 8 && a.all isHexDigit &&
    b.length == 4 && b.all isHexDigit &&
    c.length == 4 && c.all isHexDigit &&
    (match c.head? with
     | some h => 49 ≤ h.toNat && h.toNat ≤ 53
     | none => false) &&
    d.length == 4 && d.all isHexDigit &&
    (match d.head? with
     | some h => h.toNat == 56 || h.toNat == 57 || h.toNat == 97 || h.toNat == 98
     | none => false) &&
    e.length == 12 && e.all isHexDigit
  | _ => false

/-- Modelled from the spec: "date/datetime means a string parseable as a
calendar date/time".  The source defers to the JavaScript host builtin
`Date.parse`, which is not part of this repository; this model accepts an
ISO-like `YYYY-MM-DD` prefix.  No claim in this development exercises this
branch. -/
def dateParsable (s : String) : Bool :=
  let cs := s.data
  decide (cs.length ≥ 10) && (cs.take 4).all Char.isDigit &&
    cs.get? 4 == some chMinus && ((cs.drop 5).take 2).all Char.isDigit &&
    cs.get? 7 == some chMinus && ((cs.drop 8).take 2).all Char.isDigit

/-- Lookup in an association list by string key (model of a plain-object
property access). -/
def lookupAssoc {α : Type} (m : List (String × α)) (k : String) : Option α :=
  match m with
  | [] => none
  | kv :: rest => if kv.1 == k then some kv.2 else lookupAssoc rest k

/-- `throwTypeError`: validation error for a mismatched primitive type. -/
def typeErrorE (f : String) (expected : String) : Except QastError Unit :=
  .error (.validation ("Field " ++ f ++ " expects " ++ expected ++ " values"))

/-- `ensurePrimitiveType`: null is accepted only under `allowNull`, then
the declared primitive type is checked. -/
def ensurePrimitiveTypeE (f : String) (defn : FieldTypeDefinition) (p : Prim) :
    Except QastError Unit :=
  match p with
  | .null =>
    if defn.allowNull == some true then .ok ()
    else .error (.validation ("Field " ++ f ++ " does not allow null values"))
  | _ =>
    match defn.type with
    | .string =>
      match p with
      | .str _ => .ok ()
      | _ => typeErrorE f ("string")
    | .number =>
      match p with
      | .num _ => .ok ()
      | _ => typeErrorE f ("number")
    | .boolean =>
      match p with
      | .bool _ => .ok ()
      | _ => typeErrorE f ("boolean")
    | .date =>
      match p with
      | .str s => if dateParsable s then .ok () else typeErrorE f ("ISO date string")
      | _ => typeErrorE f ("ISO date string")
    | .datetime =>
      match p with
      | .str s => if dateParsable s then .ok () else typeErrorE f ("ISO date string")
      | _ => typeErrorE f ("ISO date string")
    | .uuid =>
      match p with
      | .str s => if isUuid s then .ok () else typeErrorE f ("UUID string")
      | _ => typeErrorE f ("UUID string")
    | .enum =>
      match p with
      | .str _ =>
        if (defn.enumValues.getD []).contains p then .ok ()
        else .error (.validation ("Field " ++ f ++ " must be one of the enum values"))
      | .num _ =>
        if (defn.enumValues.getD []).contains p then .ok ()
        else .error (.validation ("Field " ++ f ++ " must be one of the enum values"))
      | _ => .error (.validation ("Field " ++ f ++ " must be one of the enum values"))
    | .json =>
      match p with
      | .str _ => .ok ()
      | .num _ => .ok ()
      | .bool _ => .ok ()
      | _ => typeErrorE f ("JSON primitive")

/-- `ensureArrayValues`: every element of the array satisfies the declared
type. -/
def ensureArrayValuesE (f : String) (op : Operator) (defn : FieldTypeDefinition)
    (v : QastValue) : Except QastError Unit :=
  match v with
  | .arr xs => xs.forM (ensurePrimitiveTypeE f defn)
  | _ =>
    .error (.validation ("Field " ++ f ++ " expects an array for operator " ++ opName op))

/-- `ensureBetweenValues`: exactly two entries, each of the declared
type. -/
def ensureBetweenValuesE (f : String) (defn : FieldTypeDefinition)
    (v : QastValue) : Except QastError Unit :=
  match v with
  | .arr xs =>
    if xs.length == 2 then xs.forM (ensurePrimitiveTypeE f defn)
    else .error (.validation ("Field " ++ f ++ " expects exactly two values for between"))
  | _ => .error (.validation ("Field " ++ f ++ " expects exactly two values for between"))

/-- `ensureStringOperation`: the operator takes only string values. -/
def ensureStringOperationE (_f : String) (op : Operator) (v : QastValue) :
    Except QastError Unit :=
  match v with
  | .prim (.str _) => .ok ()
  | _ => .error (.validation ("Operator " ++ opName op ++ " requires a string value"))

/-- `ensurePrimitiveValue`: arrays only under `acceptsArrays`, each
element type-checked; scalars type-checked directly. -/
def ensurePrimitiveValueE (f : String) (defn : FieldTypeDefinition)
    (v : QastValue) : Except QastError Unit :=
  match v with
  | .arr xs =>
    if defn.acceptsArrays == some true then xs.forM (ensurePrimitiveTypeE f defn)
    else .error (.validation ("Field " ++ f ++ " does not accept array values"))
  | .prim p => ensurePrimitiveTypeE f defn p

/-- `validateFieldType`: the optional custom predicate first, then the
operator-category dispatch. -/
def validateFieldTypeE (f : String) (op : Operator) (v : QastValue)
    (defn : FieldTypeDefinition) : Except QastError Unit :=
  let custom : Except QastError Unit :=
    match defn.validator with
    | some fn =>
      if fn v then .ok ()
      else .error (.validation ("Field " ++ f ++ " failed custom validation"))
    | none => .ok ()
  match custom with
  | .error e => .error e
  | .ok _ =>
    match op with
    | .inOp => ensureArrayValuesE f op defn v
    | .notIn => ensureArrayValuesE f op defn v
    | .between => ensureBetweenValuesE f defn v
    | .contains =>
      match ensureStringOperationE f op v with
      | .error e => .error e
      | .ok _ => ensurePrimitiveValueE f defn v
    | .startsWith =>
      match ensureStringOperationE f op v with
      | .error e => .error e
      | .ok _ => ensurePrimitiveValueE f defn v
    | .endsWith =>
      match ensureStringOperationE f op v with
      | .error e => .error e
      | .ok _ => ensurePrimitiveValueE f defn v
    | _ => ensurePrimitiveValueE f defn v

/-- `validateComparisonNode`: nonempty allowed-field and allowed-operator
lists act as whitelists, the operator/value shape is re-checked, then the
optional per-field schema entry is applied. -/
def validateComparisonE (f : String) (op : Operator) (v : QastValue)
    (w : WhitelistOptions) : Except QastError Unit :=
  let fieldBad :=
    match w.allowedFields with
    | some fs => decide (fs.length > 0) && !fs.contains f
    | none => false
  if fieldBad then
    .error (.validation ("Field " ++ f ++ " is not allowed"))
  else
    let opBad :=
      match w.allowedOperators with
      | some ops => decide (ops.length > 0) && !ops.contains op
      | none => false
    if opBad then
      .error (.validation ("Operator " ++ opName op ++ " is not allowed"))
    else if op == .inOp && !isArrValue v then
      .error (.validation ("Operator in requires an array value"))
    else if op == .notIn && !isArrValue v then
      .error (.validation ("Operator notIn requires an array value"))
    else if op == .between && !isArr2Value v then
      .error (.validation ("Operator between requires exactly two values"))
    else
      match w.fieldTypes with
      | some m =>
        match lookupAssoc m f with
        | some defn => validateFieldTypeE f op v defn
        | none => .ok ()
      | none => .ok ()

/-- `validateNode`: pre-order walk over comparisons, logical nodes and NOT
nodes. -/
def validateNodeE : QastNode → WhitelistOptions → Except QastError Unit
  | .comparison f op v, w => validateComparisonE f op v w
  | .logical _ l r, w =>
    match validateNodeE l w with
    | .error e => .error e
    | .ok _ => validateNodeE r w
  | .not c, w => validateNodeE c w

/-- `validateQuery`. -/
def validateQueryE (ast : QastNode) (w : WhitelistOptions) :
    Except QastError Unit :=
  validateNodeE ast w

/-- Options of the public `parseQuery` entry point. -/
structure ParseOptions where
  allowedFields : Option (List String)
  allowedOperators : Option (List Operator)
  validate : Option Bool
  fieldTypes : Option (List (String × FieldTypeDefinition))
  maxDepth : Option Int
  maxNodes : Option Int
  maxClauses : Option Int

/-- `parseQuery` from the package index: parse, then the complexity guard
when any numeric limit is present, then validation unless disabled, and
only when some whitelist component is supplied. -/
def parseQueryOpts (query : String) (options : Option ParseOptions) :
    Except QastError QastNode :=
  match parseQueryString query with
  | .error e => .error e
  | .ok ast =>
    match options with
    | none => .ok ast
    | some o =>
      let complexity : Except QastError Unit :=
        if o.maxDepth.isSome || o.maxNodes.isSome || o.maxClauses.isSome then
          enforceQueryComplexity ast ⟨o.maxDepth, o.maxNodes, o.maxClauses⟩
        else .ok ()
      match complexity with
      | .error e => .error e
      | .ok _ =>
        if o.validate != some false then
          if o.allowedFields.isSome || o.allowedOperators.isSome || o.fieldTypes.isSome then
            match validateQueryE ast ⟨o.allowedFields, o.allowedOperators, o.fieldTypes⟩ with
            | .error e => .error e
            | .ok _ => .ok ast
          else .ok ast
        else .ok ast

/-- A JavaScript-like value: primitives, arrays and plain objects with
ordered key/value fields (keys unique by construction). -/
inductive JVal where
  | str (s : String)
  | num (n : JsNum)
  | bool (b : Bool)
  | null
  | arr (xs : List JVal)
  | obj (fs : List (String × JVal))
  deriving Repr

/-- Embed a primitive into `JVal`. -/
def primToJ : Prim → JVal
  | .str s => .str s
  | .num n => .num n
  | .bool b => .bool b
  | .null => .null

/-- Embed a query value into `JVal`. -/
def qvToJ : QastValue → JVal
  | .prim p => primToJ p
  | .arr xs => .arr (xs.map primToJ)

/-- Property read on an object value (`undefined` is `none`). -/
def objGetJ : JVal → String → Option JVal
  | .obj fs, k => lookupAssoc fs k
  | _, _ => none

/-- Fields of an object value (empty for non-objects). -/
def objFields : JVal → List (String × JVal)
  | .obj fs => fs
  | _ => []

/-- Property write on an ordered field list: an existing key is updated in
place, a new key is appended (JavaScript assignment order semantics). -/
def objSet : List (String × JVal) → String → JVal → List (String × JVal)
  | [], k, v => [(k, v)]
  | kv :: rest, k, v =>
    if kv.1 == k then (k, v) :: rest else kv :: objSet rest k v

/-- `Object.assign`: assign every field of the second list onto the
first, in order. -/
def objAssign (fs gs : List (String × JVal)) : List (String × JVal) :=
  gs.foldl (fun acc kv => objSet acc kv.1 kv.2) fs

/-- `delete obj[k]`. -/
def objDelete : List (String × JVal) → String → List (String × JVal)
  | [], _ => []
  | kv :: rest, k =>
    if kv.1 == k then objDelete rest k else kv :: objDelete rest k

/-- JavaScript truthiness of a value. -/
def jsTruthy : JVal → Bool
  | .null => false
  | .bool b => b
  | .num n => !(n.ip == 0 && n.frac.all (fun d => d == 0))
  | .str s => !(s == "")
  | .arr _ => true
  | .obj _ => true

/-- Truthiness of a possibly-missing value (`undefined` is falsy). -/
def jsTruthyOpt : Option JVal → Bool
  | some v => jsTruthy v
  | none => false

/-- JavaScript spread of a value into an array literal: arrays spread to
their elements, strings to their characters, anything else is a
TypeError. -/
def spreadJ : JVal → Except String (List JVal)
  | .arr xs => .ok xs
  | .str s => .ok (s.data.map (fun c => JVal.str (String.singleton c)))
  | _ => .error ("TypeError: value is not iterable")

/-- The Prisma `OR` key. -/
def orKey : String := "OR"

/-- The compiled Prisma filter (`toPrismaFilter` output): the object under
the `where` key. -/
structure PrismaFilter where
  whereClause : JVal
  deriving Repr

/-- `transformComparisonNode` of the Prisma adapter, exactly as in
`src/adapters/prisma.ts`: only eq, ne, gt, lt, gte, lte, in and contains
are mapped; every other operator falls through to the
unsupported-operator error. -/
def transformComparisonP (f : String) (op : Operator) (v : QastValue) :
    Except String JVal :=
  match op with
  | .eq => .ok (.obj [(f, .obj [("equals", qvToJ v)])])
  | .ne => .ok (.obj [(f, .obj [("not", qvToJ v)])])
  | .gt => .ok (.obj [(f, .obj [("gt", qvToJ v)])])
  | .lt => .ok (.obj [(f, .obj [("lt", qvToJ v)])])
  | .gte => .ok (.obj [(f, .obj [("gte", qvToJ v)])])
  | .lte => .ok (.obj [(f, .obj [("lte", qvToJ v)])])
  | .inOp => .ok (.obj [(f, .obj [("in", qvToJ v)])])
  | .contains => .ok (.obj [(f, .obj [("contains", qvToJ v)])])
  | _ => .error ("Unsupported operator: " ++ opName op)

/-- `mergeFilters` of the Prisma adapter (AND merge): when neither side
carries an `OR` key the right object is assigned over a copy of the left;
otherwise the non-OR fields are merged and the OR arrays are combined. -/
def mergeFiltersP (l r : JVal) : Except String JVal :=
  let lf := objFields l
  let rf := objFields r
  let leftOr := lookupAssoc lf orKey
  let rightOr := lookupAssoc rf orKey
  if jsTruthyOpt leftOr || jsTruthyOpt rightOr then
    let lwo := objDelete lf orKey
    let rwo := objDelete rf orKey
    let result := objAssign (objAssign lf lwo) rwo
    if jsTruthyOpt leftOr && jsTruthyOpt rightOr then
      match spreadJ (leftOr.getD .null), spreadJ (rightOr.getD .null) with
      | .ok la, .ok ra => .ok (.obj (objSet result orKey (.arr (la ++ ra))))
      | .error e, _ => .error e
      | _, .error e => .error e
    else if jsTruthyOpt leftOr then
      .ok (.obj (objSet result orKey (leftOr.getD .null)))
    else
      .ok (.obj (objSet result orKey (rightOr.getD .null)))
  else .ok (.obj (objAssign lf rf))

/-- `transformLogicalNode` of the Prisma adapter, given the two already
compiled sides: AND merges, OR builds or splices an `OR` array. -/
def transformLogicalP (lop : LogicalOperator) (leftF rightF : JVal) :
    Except String JVal :=
  match lop with
  | .AND => mergeFiltersP leftF rightF
  | .OR =>
    let leftOr := objGetJ leftF orKey
    let rightOr := objGetJ rightF orKey
    if jsTruthyOpt leftOr && jsTruthyOpt rightOr then
      match spreadJ (leftOr.getD .null), spreadJ (rightOr.getD .null) with
      | .ok la, .ok ra => .ok (.obj [(orKey, .arr (la ++ ra))])
      | .error e, _ => .error e
      | _, .error e => .error e
    else if jsTruthyOpt leftOr then
      match spreadJ (leftOr.getD .null) with
      | .ok la => .ok (.obj [(orKey, .arr (la ++ [rightF]))])
      | .error e => .error e
    else if jsTruthyOpt rightOr then
      match spreadJ (rightOr.getD .null) with
      | .ok ra => .ok (.obj [(orKey, .arr (leftF :: ra))])
      | .error e => .error e
    else .ok (.obj [(orKey, .arr [leftF, rightF])])

/-- `transformNode` of the Prisma adapter: comparisons and logical nodes;
any other node (a NOT node in particular) raises the invalid-node
error. -/
def transformNodeP : QastNode → Except String JVal
  | .comparison f op v => transformComparisonP f op v
  | .logical lop l r =>
    match transformNodeP l with
    | .error e => .error e
    | .ok leftF =>
      match transformNodeP r with
      | .error e => .error e
      | .ok rightF => transformLogicalP lop leftF rightF
  | .not _ => .error ("Invalid node type")

/-- `toPrismaFilter`. -/
def toPrismaFilter (ast : QastNode) : Except String PrismaFilter :=
  match transformNodeP ast with
  | .ok w => .ok ⟨w⟩
  | .error e => .error e

/-- Double the double quotes of an identifier segment. -/
def escQuoteSeg (cs : List Char) : List Char :=
  (cs.map (fun c => if c == chDQ then [chDQ, chDQ] else [c])).flatten

/-- Quote one identifier segment. -/
def quoteSeg (cs : List Char) : List Char :=
  chDQ :: (escQuoteSeg cs ++ [chDQ])

/-- Join segments with dots. -/
def joinDotSegs : List (List Char) → List Char
  | [] => []
  | [s] => s
  | s :: rest => s ++ chDot :: joinDotSegs rest

/-- `quoteIdentifier`: each dot segment double-quoted with quote-doubling
escape, re-joined with dots. -/
def quoteIdentifier (f : String) : String :=
  String.mk (joinDotSegs ((splitOnChar chDot f.data).map quoteSeg))

/-- JavaScript decimal rendering of a scanned number. -/
def jsNumStr (n : JsNum) : String :=
  (if n.neg then "-" else "") ++ natStr n.ip ++
    (if n.frac.isEmpty then ""
     else "." ++ String.mk (n.frac.map (fun d => Char.ofNat (48 + d))))

/-- Template stringification of a primitive. -/
def primStr : Prim → String
  | .str s => s
  | .num n => jsNumStr n
  | .bool b => if b then "true" else "false"
  | .null => "null"

/-- Array element stringification (null renders empty inside arrays). -/
def arrElemStr : Prim → String
  | .null => ""
  | p => primStr p

/-- Join strings with commas (JavaScript array toString). -/
def joinComma : List String → String
  | [] => ""
  | [s] => s
  | s :: rest => s ++ "," ++ joinComma rest

/-- Template stringification of a query value. -/
def jsToStr : QastValue → String
  | .prim p => primStr p
  | .arr xs => joinComma (xs.map arrElemStr)

/-- `SqlFilterBuilder.placeholder`: push the value, emit the next
positional placeholder. -/
def placeholderS (v : QastValue) (p : List QastValue) :
    String × List QastValue :=
  ("$" ++ natStr (p.length + 1), p ++ [v])

/-- `eqClause`: `IS NULL` for null, otherwise a bound equality. -/
def eqClauseS (col : String) (v : QastValue) (p : List QastValue) :
    String × List QastValue :=
  if v == .prim .null then (col ++ " IS NULL", p)
  else
    let r := placeholderS v p
    (col ++ " = " ++ r.1, r.2)

/-- `neClause`. -/
def neClauseS (col : String) (v : QastValue) (p : List QastValue) :
    String × List QastValue :=
  if v == .prim .null then (col ++ " IS NOT NULL", p)
  else
    let r := placeholderS v p
    (col ++ " <> " ++ r.1, r.2)

/-- Emit one placeholder per list element, in order. -/
def phFold : List Prim → List QastValue → List String × List QastValue
  | [], p => ([], p)
  | v :: vs, p =>
    let r := placeholderS (.prim v) p
    let rest := phFold vs r.2
    (r.1 :: rest.1, rest.2)

/-- Join with comma-space (placeholder lists inside IN). -/
def joinCommaSp : List String → String
  | [] => ""
  | [s] => s
  | s :: rest => s ++ ", " ++ joinCommaSp rest

/-- `listClause`: `IN`/`NOT IN` over a non-empty array; a non-array or
empty value is an error. -/
def listClauseS (col : String) (v : QastValue) (negate : Bool)
    (p : List QastValue) : Except String (String × List QastValue) :=
  match v with
  | .arr vs =>
    if vs.isEmpty then
      .error ("Operator " ++ (if negate then "notIn" else "in") ++
        " requires at least one value.")
    else
      let r := phFold vs p
      .ok (col ++ (if negate then " NOT IN (" else " IN (") ++
        joinCommaSp r.1 ++ ")", r.2)
  | _ =>
    .error ("Operator " ++ (if negate then "notIn" else "in") ++
      " requires at least one value.")

/-- `betweenClause`: both bounds, a single inequality, or the `1 = 1`
tautology.  The source destructures the value as a pair; a string would
destructure into its characters, anything else is a TypeError (both
unreachable for parser-produced ASTs). -/
def betweenClauseS (col : String) (v : QastValue) (p : List QastValue) :
    Except String (String × List QastValue) :=
  let core : Option Prim → Option Prim → Except String (String × List QastValue) :=
    fun s0 e0 =>
      let hasStart := match s0 with
        | some pr => !(pr == Prim.null)
        | none => false
      let hasEnd := match e0 with
        | some pr => !(pr == Prim.null)
        | none => false
      if hasStart && hasEnd then
        let r1 := placeholderS (.prim (s0.getD Prim.null)) p
        let r2 := placeholderS (.prim (e0.getD Prim.null)) r1.2
        .ok (col ++ " BETWEEN " ++ r1.1 ++ " AND " ++ r2.1, r2.2)
      else if hasStart then
        let r := placeholderS (.prim (s0.getD Prim.null)) p
        .ok (col ++ " >= " ++ r.1, r.2)
      else if hasEnd then
        let r := placeholderS (.prim (e0.getD Prim.null)) p
        .ok (col ++ " <= " ++ r.1, r.2)
      else .ok ("1 = 1", p)
  match v with
  | .arr xs => core (xs.get? 0) (xs.get? 1)
  | .prim (.str s) =>
    core ((s.data.get? 0).map (fun c => Prim.str (String.singleton c)))
      ((s.data.get? 1).map (fun c => Prim.str (String.singleton c)))
  | _ => .error ("TypeError: value is not iterable")

/-- `transformComparison` of the SQL builder: all twelve operators. -/
def transformComparisonS (f : String) (op : Operator) (v : QastValue)
    (p : List QastValue) : Except String (String × List QastValue) :=
  let col := quoteIdentifier f
  match op with
  | .eq => .ok (eqClauseS col v p)
  | .ne => .ok (neClauseS col v p)
  | .gt =>
    let r := placeholderS v p
    .ok (col ++ " > " ++ r.1, r.2)
  | .gte =>
    let r := placeholderS v p
    .ok (col ++ " >= " ++ r.1, r.2)
  | .lt =>
    let r := placeholderS v p
    .ok (col ++ " < " ++ r.1, r.2)
  | .lte =>
    let r := placeholderS v p
    .ok (col ++ " <= " ++ r.1, r.2)
  | .inOp => listClauseS col v false p
  | .notIn => listClauseS col v true p
  | .contains =>
    let r := placeholderS (.prim (.str ("%" ++ jsToStr v ++ "%"))) p
    .ok (col ++ " LIKE " ++ r.1, r.2)
  | .startsWith =>
    let r := placeholderS (.prim (.str (jsToStr v ++ "%"))) p
    .ok (col ++ " LIKE " ++ r.1, r.2)
  | .endsWith =>
    let r := placeholderS (.prim (.str ("%" ++ jsToStr v))) p
    .ok (col ++ " LIKE " ++ r.1, r.2)
  | .between => betweenClauseS col v p

/-- `transformNode` of the SQL builder, with the parameter list threaded
explicitly (the source mutates `this.params`). -/
def transformNodeS : QastNode → List QastValue →
    Except String (String × List QastValue)
  | .comparison f op v, p => transformComparisonS f op v p
  | .logical lop l r, p =>
    match transformNodeS l p with
    | .error e => .error e
    | .ok (ls, p1) =>
      match transformNodeS r p1 with
      | .error e => .error e
      | .ok (rs, p2) =>
        .ok ("(" ++ ls ++ (match lop with
          | .AND => " AND "
          | .OR => " OR ") ++ rs ++ ")", p2)
  | .not c, p =>
    match transformNodeS c p with
    | .error e => .error e
    | .ok (cs, p1) => .ok ("(NOT (" ++ cs ++ "))", p1)

/-- The compiled SQL filter: text plus parallel parameters. -/
structure SqlFilter where
  text : String
  params : List QastValue
  deriving DecidableEq, Repr

/-- `toSqlFilter`: build from an empty parameter list. -/
def toSqlFilter (ast : QastNode) : Except String SqlFilter :=
  match transformNodeS ast [] with
  | .ok r => .ok ⟨r.1, r.2⟩
  | .error e => .error e

/-- `toDrizzleFilter` is an alias of the SQL output. -/
def toDrizzleFilter (ast : QastNode) : Except String SqlFilter :=
  toSqlFilter ast

/-- Caller-supplied TypeORM operator table; a missing entry is a fatal
configuration error at finalize time. -/
structure TypeOrmOperatorMap where
  Equal : Option (JVal → JVal)
  Not : Option (JVal → JVal)
  MoreThan : Option (JVal → JVal)
  MoreThanOrEqual : Option (JVal → JVal)
  LessThan : Option (JVal → JVal)
  LessThanOrEqual : Option (JVal → JVal)
  In : Option (JVal → JVal)
  Between : Option (JVal → JVal → JVal)
  Like : Option (JVal → JVal)
  ILike : Option (JVal → JVal)

/-- The operator table with no entries. -/
def emptyOperatorMap : TypeOrmOperatorMap :=
  ⟨none, none, none, none, none, none, none, none, none, none⟩

/-- `callOperator` for a unary table entry. -/
def callOp1 (name : String) (fn : Option (JVal → JVal)) (arg : JVal) :
    Except String JVal :=
  match fn with
  | some g => .ok (g arg)
  | none =>
    .error ("TypeORM operator " ++ name ++ " is required to finalize this filter.")

/-- `callOperator` for the binary `Between` entry. -/
def callOp2 (name : String) (fn : Option (JVal → JVal → JVal)) (a b : JVal) :
    Except String JVal :=
  match fn with
  | some g => .ok (g a b)
  | none =>
    .error ("TypeORM operator " ++ name ++ " is required to finalize this filter.")

/-- Array element stringification for `JVal` (null renders empty). -/
def jvElemStr : JVal → String
  | .null => ""
  | .str s => s
  | .num n => jsNumStr n
  | .bool b => if b then "true" else "false"
  | .arr _ => ""
  | .obj _ => "[object Object]"

/-- Template stringification of a JavaScript value (used by the LIKE
wrapping in the finalizer). -/
def jvToStr : JVal → String
  | .str s => s
  | .num n => jsNumStr n
  | .bool b => if b then "true" else "false"
  | .null => "null"
  | .arr xs => joinComma (xs.map jvElemStr)
  | .obj _ => "[object Object]"

/-- Indexing `operand[i]` (JS `undefined` out of range, modelled as null;
unreachable for parser-produced envelopes where between payloads are
2-element arrays). -/
def jIndex : JVal → Nat → JVal
  | .arr xs, i => xs.getD i .null
  | .str s, i =>
    match s.data.get? i with
    | some c => .str (String.singleton c)
    | none => .null
  | _, _ => .null

/-- `likeOperator`: prefer `ILike` when supplied, else `Like`. -/
def likeOperatorT (ops : TypeOrmOperatorMap) (v : JVal) : Except String JVal :=
  match ops.ILike with
  | some g => .ok (g v)
  | none => callOp1 ("Like") ops.Like v

/-- `convertOperator` of the TypeORM finalizer; an unknown operator string
falls through to the operand unchanged (the source default branch). -/
def convertOperatorT (ops : TypeOrmOperatorMap) (o : String) (operand : JVal) :
    Except String JVal :=
  if o == "ne" then callOp1 ("Not") ops.Not operand
  else if o == "gt" then callOp1 ("MoreThan") ops.MoreThan operand
  else if o == "gte" then callOp1 ("MoreThanOrEqual") ops.MoreThanOrEqual operand
  else if o == "lt" then callOp1 ("LessThan") ops.LessThan operand
  else if o == "lte" then callOp1 ("LessThanOrEqual") ops.LessThanOrEqual operand
  else if o == "in" then callOp1 ("In") ops.In operand
  else if o == "notIn" then
    match callOp1 ("In") ops.In operand with
    | .ok inner => callOp1 ("Not") ops.Not inner
    | .error e => .error e
  else if o == "contains" then likeOperatorT ops (.str ("%" ++ jvToStr operand ++ "%"))
  else if o == "startsWith" then likeOperatorT ops (.str (jvToStr operand ++ "%"))
  else if o == "endsWith" then likeOperatorT ops (.str ("%" ++ jvToStr operand))
  else if o == "between" then
    callOp2 ("Between") ops.Between (jIndex operand 0) (jIndex operand 1)
  else .ok operand

/-- The `__qast_not__` marker key. -/
def qastNotKey : String := "__qast_not__"

/-- The `__qast_operator__` marker key. -/
def qastOpKey : String := "__qast_operator__"

/-- The envelope payload key. -/
def envValueKey : String := "value"

/-- Operator string of an envelope (non-strings fall to the default branch
of `convertOperator`, modelled by the never-matching empty string). -/
def jvOpStr : Option JVal → String
  | some (.str s) => s
  | _ => ""

/-- The three mutually recursive walkers of `finalizeTypeOrmFilter`
(`transformCondition`, `transformValue`, `applyNot`) as one mode type. -/
inductive FMode where
  | cond
  | val
  | appNot
  deriving Repr

/-- One fuel-indexed function for the finalizer recursion; the fuel
decreases at every call and the public wrapper supplies ample fuel. -/
def finStep (ops : TypeOrmOperatorMap) : Nat → FMode → JVal →
    Except String JVal
  | 0, _, _ => .error ("Finalize fuel exhausted")
  | fuel + 1, .cond, v =>
    match v with
    | .arr xs => do
      let ys ← xs.mapM (finStep ops fuel .cond)
      return (.arr ys)
    | .obj fs =>
      let doObj : Except String JVal := do
        let gs ← fs.mapM (fun kv => do
          let w ← finStep ops fuel .val kv.2
          return (kv.1, w))
        return (.obj gs)
      match lookupAssoc fs qastNotKey with
      | some payload =>
        if jsTruthy payload then finStep ops fuel .appNot payload else doObj
      | none => doObj
    | other => .ok other
  | fuel + 1, .val, v =>
    match v with
    | .arr xs => do
      let ys ← xs.mapM (finStep ops fuel .cond)
      return (.arr ys)
    | .obj fs =>
      if jsTruthyOpt (lookupAssoc fs qastOpKey) then
        convertOperatorT ops (jvOpStr (lookupAssoc fs qastOpKey))
          ((lookupAssoc fs envValueKey).getD .null)
      else
        match lookupAssoc fs qastNotKey with
        | some payload =>
          if jsTruthy payload then finStep ops fuel .appNot payload
          else finStep ops fuel .cond v
        | none => finStep ops fuel .cond v
    | other => .ok other
  | fuel + 1, .appNot, target =>
    match finStep ops fuel .cond target with
    | .error e => .error e
    | .ok t =>
      match t with
      | .arr _ =>
        .error ("Cannot convert NOT over OR conditions using finalizeTypeOrmFilter.")
      | .obj fs => do
        let gs ← fs.mapM (fun kv => do
          let w ← callOp1 ("Not") ops.Not kv.2
          return (kv.1, w))
        return (.obj gs)
      | other => callOp1 ("Not") ops.Not other

mutual

/-- Structural size of a JavaScript value, used only to provide ample
fuel for the finalizer recursion. -/
def jsize : JVal → Nat
  | .str _ => 1
  | .num _ => 1
  | .bool _ => 1
  | .null => 1
  | .arr xs => 1 + jsizeL xs
  | .obj fs => 1 + jsizeF fs

/-- Size of a value list. -/
def jsizeL : List JVal → Nat
  | [] => 0
  | v :: vs => jsize v + jsizeL vs

/-- Size of a field list. -/
def jsizeF : List (String × JVal) → Nat
  | [] => 0
  | kv :: fs => 1 + jsize kv.2 + jsizeF fs

end

/-- `transformCondition` with canonical ample fuel. -/
def transformConditionC (ops : TypeOrmOperatorMap) (v : JVal) :
    Except String JVal :=
  finStep ops (3 * jsize v + 3) .cond v

/-- The envelope filter fed to the TypeORM finalizer. -/
structure TypeORMFilter where
  whereClause : JVal

/-- `finalizeTypeOrmFilter`. -/
def finalizeTypeOrmFilter (filter : TypeORMFilter) (ops : TypeOrmOperatorMap) :
    Except String TypeORMFilter :=
  match transformConditionC ops filter.whereClause with
  | .ok w => .ok ⟨w⟩
  | .error e => .error e

/-- Scanner state for the placeholder extraction: outside a dollar token,
just after a dollar sign, or inside the digits of `$n`. -/
inductive PH where
  | idle
  | dollar
  | num (n : Nat)
  deriving DecidableEq, Repr

/-- Pending emission of a scanner state. -/
def phFlush : PH → List Nat
  | .num n => [n]
  | _ => []

/-- One scanner step over a character: the Boolean tracks being inside a
double-quoted identifier, where nothing is a placeholder. -/
def qstep : Bool × PH → Char → (Bool × PH) × List Nat
  | (true, st), c =>
    if c == chDQ then ((false, st), []) else ((true, st), [])
  | (false, st), c =>
    if c == chDQ then ((true, .idle), phFlush st)
    else if c == chDollar then ((false, .dollar), phFlush st)
    else if c.isDigit then
      match st with
      | .dollar => ((false, .num (digitVal c)), [])
      | .num n => ((false, .num (10 * n + digitVal c)), [])
      | .idle => ((false, .idle), [])
    else ((false, .idle), phFlush st)

/-- Run the scanner over a character list, collecting emissions. -/
def qrun : List Char → Bool × PH → (Bool × PH) × List Nat
  | [], st => (st, [])
  | c :: cs, st =>
    let r := qstep st c
    let rest := qrun cs r.1
    (rest.1, r.2 ++ rest.2)

/-- All placeholder numbers of a character list, left to right, skipping
quoted identifiers. -/
def scanChars (cs : List Char) : List Nat :=
  let r := qrun cs (false, .idle)
  r.2 ++ phFlush r.1.2

/-- All placeholder numbers of an SQL text, left to right. -/
def scanPlaceholders (s : String) : List Nat := scanChars s.data

/-- Specification-side predicate for the complexity guard: some configured
limit is strictly exceeded by the corresponding measured value. -/
def exceededP (lim : ComplexityLimits) (s : ComplexityStats) : Prop :=
  (∃ d, lim.maxDepth = some d ∧ (s.depth : Int) > d) ∨
  (∃ m, lim.maxNodes = some m ∧ (s.nodes : Int) > m) ∨
  (∃ m, lim.maxClauses = some m ∧ (s.clauses : Int) > m)

/-- Specification-side predicate for the amended validator claim: one
comparison passes the whitelist (a nonempty supplied field list contains
the field, a nonempty supplied operator list contains the operator) and
the operator/value shape checks. -/
def compOkB (w : WhitelistOptions) (f : String) (op : Operator)
    (v : QastValue) : Bool :=
  (match w.allowedFields with
   | some fs => fs.isEmpty || fs.contains f
   | none => true) &&
  (match w.allowedOperators with
   | some ops => ops.isEmpty || ops.contains op
   | none => true) &&
  (!(op == .inOp) || isArrValue v) &&
  (!(op == .notIn) || isArrValue v) &&
  (!(op == .between) || isArr2Value v)

/-- Every comparison of the tree passes `compOkB`, NOT children
included. -/
def everyCompOkB (w : WhitelistOptions) : QastNode → Bool
  | .comparison f op v => compOkB w f op v
  | .logical _ l r => everyCompOkB w l && everyCompOkB w r
  | .not c => everyCompOkB w c

/-- Iterated NOT wrapping. -/
def iterNot : Nat → QastNode → QastNode
  | 0, n => n
  | k + 1, n => .not (iterNot k n)

/-- The `not` keyword token (positions are irrelevant to the parser's
result). -/
def notTok : Token := ⟨.LOGICAL_OP, .str ("not"), 0⟩

/-- The `and` keyword token. -/
def andTok : Token := ⟨.LOGICAL_OP, .str ("and"), 0⟩

/-- The `or` keyword token. -/
def orTok : Token := ⟨.LOGICAL_OP, .str ("or"), 0⟩

/-- The end-of-input token. -/
def eofTok : Token := ⟨.EOF, .str (""), 0⟩

/-- An identifier token. -/
def idTok (s : String) : Token := ⟨.IDENTIFIER, .str s, 0⟩

/-- An operator token. -/
def opTok (o : Operator) : Token := ⟨.OPERATOR, .oper o, 0⟩

/-- A value token. -/
def valTok (v : QastValue) : Token := ⟨.VALUE, .val v, 0⟩

/-- The state/output invariant the placeholder scanner maintains across
an SQL fragment: scanning from the idle state outside quotes ends
outside quotes, and the emitted numbers followed by the pending one are
exactly `len` consecutive placeholder indices starting at `base`. -/
def SqlFragInv (s : String) (base len : Nat) : Prop :=
  ∃ fin out, qrun s.data (false, .idle) = (fin, out) ∧ fin.1 = false ∧
    out ++ phFlush fin.2 = List.range' base len

end Qast

namespace Qast

/-- C1: the specification promises that the Prisma compiler implements
every one of the twelve operators, and in particular that the
`createdAt between [..]` scenario compiles to a gte/lte pair.  The code
disagrees with its own test suite: the parser produces the expected
Comparison node, but `transformComparisonNode` raises the
unsupported-operator error for `between` (and likewise for `notIn`,
`startsWith` and `endsWith`). -/
theorem prisma_missing_operators :
    parseQueryString "createdAt between [\"2024-01-01\",\"2024-02-01\"]" =
      .ok (.comparison ("createdAt") .between
        (.arr [.str ("2024-01-01"), .str ("2024-02-01")])) ∧
    toPrismaFilter (.comparison ("createdAt") .between
        (.arr [.str ("2024-01-01"), .str ("2024-02-01")])) =
      .error ("Unsupported operator: between") ∧
    (∀ f v, toPrismaFilter (.comparison f .between v) =
      .error ("Unsupported operator: between")) ∧
    (∀ f v, toPrismaFilter (.comparison f .notIn v) =
      .error ("Unsupported operator: notIn")) ∧
    (∀ f v, toPrismaFilter (.comparison f .startsWith v) =
      .error ("Unsupported operator: startsWith")) ∧
    (∀ f v, toPrismaFilter (.comparison f .endsWith v) =
      .error ("Unsupported operator: endsWith")) :=
  ⟨rfl, rfl, fun _ _ => rfl, fun _ _ => rfl, fun _ _ => rfl, fun _ _ => rfl⟩

/-- C3 counterexample: the claim says `parse("age gt 25", {maxDepth:1})`
raises a QueryComplexityError; in fact the call succeeds, because a single
comparison measures depth 1 and the guard only rejects strictly greater
depths. -/
theorem maxdepth_claim_counterexample :
    parseQueryOpts "age gt 25"
      (some ⟨none, none, none, none, some 1, none, none⟩) =
      .ok (.comparison ("age") .gt (.prim (.num ⟨false, 25, []⟩))) := rfl

/-- C3 amended: at the exact boundary, `parse("age gt 25", {maxDepth:1})`
succeeds (depth 1 is allowed under maxDepth 1), and a nested `and` raising
the depth to 2 is rejected with a QueryComplexityError when maxDepth
is 1. -/
theorem maxdepth_boundary :
    parseQueryOpts "age gt 25"
      (some ⟨none, none, none, none, some 1, none, none⟩) =
      .ok (.comparison ("age") .gt (.prim (.num ⟨false, 25, []⟩))) ∧
    parseQueryOpts "age gt 25 and age lt 30"
      (some ⟨none, none, none, none, some 1, none, none⟩) =
      .error (.complexity
        ("Query exceeds maximum depth of 1 (received depth 2)")) :=
  ⟨rfl, rfl⟩

/-- C6: `parse("age in [])` succeeds with an empty list value, while
SQL-compiling any `in`/`notIn` comparison whose list is empty raises an
error instead of emitting an empty `IN ()` clause. -/
theorem empty_list_parse_ok_sql_error :
    parseQueryString "age in []" =
      .ok (.comparison ("age") .inOp (.arr [])) ∧
    (∀ f, toSqlFilter (.comparison f .inOp (.arr [])) =
      .error ("Operator in requires at least one value.")) ∧
    (∀ f, toSqlFilter (.comparison f .notIn (.arr [])) =
      .error ("Operator notIn requires at least one value.")) :=
  ⟨rfl, fun _ => rfl, fun _ => rfl⟩

/-- C5: the complexity guard measures a comparison leaf as depth 1, a NOT
node as its child plus one, a logical node as the maximum of its children
plus one; node count counts every node once and clause count counts the
comparison leaves; `enforceQueryComplexity` succeeds exactly when no
configured limit is strictly exceeded. -/
theorem complexity_guard_spec (ast c l r : QastNode) (lop : LogicalOperator)
    (f : String) (o : Operator) (v : QastValue) (lim : ComplexityLimits) :
    calculateStats (.comparison f o v) = ⟨1, 1, 1⟩ ∧
    calculateStats (.not c) =
      ⟨(calculateStats c).depth + 1, (calculateStats c).nodes + 1,
        (calculateStats c).clauses⟩ ∧
    calculateStats (.logical lop l r) =
      ⟨max (calculateStats l).depth (calculateStats r).depth + 1,
        (calculateStats l).nodes + (calculateStats r).nodes + 1,
        (calculateStats l).clauses + (calculateStats r).clauses⟩ ∧
    ((enforceQueryComplexity ast lim = .ok ()) ↔
      ¬ exceededP lim (calculateStats ast)) := by
  refine ⟨rfl, rfl, rfl, ?_⟩
  rcases lim with ⟨d, n, cl⟩
  simp only [enforceQueryComplexity, enforceNodes, enforceClauses, exceededP]
  cases d <;> cases n <;> cases cl <;>
    simp only [Option.some.injEq, reduceCtorEq, false_and, exists_false,
      exists_eq_left, false_or, or_false] <;>
    (try split_ifs) <;> simp_all

/-- C9: the Prisma AND merge of two comparisons on one field keeps only
the right-hand constraint: the right object is assigned over the left, so
the left constraint for the shared field is silently overwritten. -/
theorem prisma_and_same_field_overwrite
    (f : String) (o1 o2 : Operator) (v1 v2 : QastValue) (w1 w2 : JVal)
    (hf : f ≠ orKey)
    (h1 : transformNodeP (.comparison f o1 v1) = .ok (.obj [(f, w1)]))
    (h2 : transformNodeP (.comparison f o2 v2) = .ok (.obj [(f, w2)])) :
    toPrismaFilter (.logical .AND (.comparison f o1 v1) (.comparison f o2 v2)) =
      .ok ⟨.obj [(f, w2)]⟩ := by
  have hb : (f == orKey) = false := by
    simpa using hf
  have h1x : transformComparisonP f o1 v1 = .ok (.obj [(f, w1)]) := h1
  have h2x : transformComparisonP f o2 v2 = .ok (.obj [(f, w2)]) := h2
  simp only [toPrismaFilter, transformNodeP, h1x, h2x, transformLogicalP,
    mergeFiltersP, objFields, lookupAssoc, hb, if_false, Bool.false_eq_true,
    jsTruthyOpt, Bool.or_self, objAssign, List.foldl, objSet, beq_self_eq_true,
    if_true]

/-- C2 counterexample: the claim demands a ValidationError exactly when
some comparison field lies outside the supplied allowedFields set; with
the supplied set empty, the field `age` is outside it, yet the validator
accepts (an empty supplied list is skipped by the `length > 0` guard). -/
theorem validator_claim_counterexample :
    validateQueryE (.comparison ("age") .gt (.prim (.num ⟨false, 25, []⟩)))
      ⟨some [], none, none⟩ = .ok () ∧
    "age" ∉ ([] : List String) :=
  ⟨rfl, by simp⟩

/-- C2 amended: with no field-type schema supplied, `validateQuery`
accepts exactly the ASTs whose every comparison (NOT children included)
has its field inside a nonempty supplied allowedFields list, its operator
inside a nonempty supplied allowedOperators list, an array value for
in/notIn and a 2-element array for between; an empty supplied list is
treated as absent. -/
theorem validator_whitelist_iff (ast : QastNode) (w : WhitelistOptions)
    (hft : w.fieldTypes = none) :
    (validateQueryE ast w = .ok ()) ↔ everyCompOkB w ast = true := by
  induction ast with
  | comparison f op v =>
    rcases w with ⟨af, ao, ft⟩
    simp only at hft
    subst hft
    simp only [validateQueryE, validateNodeE, validateComparisonE, everyCompOkB,
      compOkB]
    cases af <;> cases ao <;>
      split_ifs <;>
      simp_all [List.isEmpty_iff, Nat.pos_iff_ne_zero, List.length_eq_zero] <;>
      tauto
  | logical lop l r ihl ihr =>
    simp only [validateQueryE] at ihl ihr ⊢
    simp only [validateNodeE, everyCompOkB]
    cases hval : validateNodeE l w with
    | error e =>
      have : everyCompOkB w l = false := by
        cases hok : everyCompOkB w l
        · rfl
        · exact absurd (ihl.mpr hok) (by simp [hval])
      simp [this, hval]
    | ok u =>
      cases u
      rw [Bool.and_eq_true, ← ihl, ← ihr]
      simp [hval]
  | not c ih =>
    simp only [validateQueryE] at ih ⊢
    simpa only [validateNodeE, everyCompOkB] using ih

/-- C2 witness: a concrete whitelist and a tree with a NOT child, accepted
exactly as the characterization predicts. -/
theorem validator_whitelist_iff_witness :
    validateQueryE
      (.logical .AND
        (.comparison ("age") .gt (.prim (.num ⟨false, 25, []⟩)))
        (.not (.comparison ("city") .eq (.prim (.str ("Paris"))))))
      ⟨some [("age"), ("city")], some [.gt, .eq], none⟩ = .ok () :=
  (validator_whitelist_iff
    (.logical .AND
      (.comparison ("age") .gt (.prim (.num ⟨false, 25, []⟩)))
      (.not (.comparison ("city") .eq (.prim (.str ("Paris"))))))
    ⟨some [("age"), ("city")], some [.gt, .eq], none⟩ rfl).mpr (by decide)

/-- C9 witness: `age gt 25 and age lt 30` Prisma-compiles to a filter
keeping only the `lt` constraint. -/
theorem prisma_and_same_field_overwrite_witness :
    toPrismaFilter (.logical .AND
      (.comparison ("age") .gt (.prim (.num ⟨false, 25, []⟩)))
      (.comparison ("age") .lt (.prim (.num ⟨false, 30, []⟩)))) =
      .ok ⟨.obj [(("age"), .obj [(("lt"), .num ⟨false, 30, []⟩)])]⟩ :=
  prisma_and_same_field_overwrite ("age") .gt .lt
    (.prim (.num ⟨false, 25, []⟩)) (.prim (.num ⟨false, 30, []⟩))
    (.obj [(("gt"), .num ⟨false, 25, []⟩)])
    (.obj [(("lt"), .num ⟨false, 30, []⟩)])
    (by decide) rfl rfl

/-- Fuel monotonicity of the recursive-descent parser: a successful parse
at some fuel succeeds identically at any larger fuel. -/
theorem parseStep_mono (f : Nat) :
    ∀ (g : Nat) (m : PMode) (ts : List Token) (r : QastNode × List Token),
      f ≤ g → parseStep f m ts = .ok r → parseStep g m ts = .ok r := by
  induction f with
  | zero => intro g m ts r _ h; simp [parseStep] at h
  | succ f ih =>
    intro g m ts r hfg h
    obtain ⟨g', rfl⟩ : ∃ g', g = g' + 1 := ⟨g - 1, by omega⟩
    have hfg' : f ≤ g' := by omega
    cases m with
    | orE =>
      simp only [parseStep] at h ⊢
      cases hl : parseStep f .andE ts with
      | error e => rw [hl] at h; exact absurd h (by simp)
      | ok p =>
        rw [hl] at h
        rw [ih g' .andE ts p hfg' hl]
        exact ih g' _ _ _ hfg' h
    | orL n =>
      simp only [parseStep] at h ⊢
      cases hc : isLogicalTok ts ("or") with
      | false => rw [hc] at h; simpa using h
      | true =>
        rw [hc] at h
        simp only [if_true] at h ⊢
        cases hl : parseStep f .andE ts.tail with
        | error e => rw [hl] at h; exact absurd h (by simp)
        | ok p =>
          rw [hl] at h
          rw [ih g' .andE ts.tail p hfg' hl]
          exact ih g' _ _ _ hfg' h
    | andE =>
      simp only [parseStep] at h ⊢
      cases hl : parseStep f .notE ts with
      | error e => rw [hl] at h; exact absurd h (by simp)
      | ok p =>
        rw [hl] at h
        rw [ih g' .notE ts p hfg' hl]
        exact ih g' _ _ _ hfg' h
    | andL n =>
      simp only [parseStep] at h ⊢
      cases hc : isLogicalTok ts ("and") with
      | false => rw [hc] at h; simpa using h
      | true =>
        rw [hc] at h
        simp only [if_true] at h ⊢
        cases hl : parseStep f .notE ts.tail with
        | error e => rw [hl] at h; exact absurd h (by simp)
        | ok p =>
          rw [hl] at h
          rw [ih g' .notE ts.tail p hfg' hl]
          exact ih g' _ _ _ hfg' h
    | notE =>
      simp only [parseStep] at h ⊢
      cases hc : isLogicalTok ts ("not") with
      | false =>
        rw [hc] at h
        simp only [Bool.false_eq_true, if_false] at h ⊢
        exact ih g' _ _ _ hfg' h
      | true =>
        rw [hc] at h
        simp only [if_true] at h ⊢
        cases hl : parseStep f .notE ts.tail with
        | error e => rw [hl] at h; exact absurd h (by simp)
        | ok p =>
          rw [hl] at h
          rw [ih g' .notE ts.tail p hfg' hl]
          exact h
    | termE =>
      simp only [parseStep] at h ⊢
      cases hc : isTypeTok ts .PAREN_OPEN with
      | false =>
        rw [hc] at h
        simp only [Bool.false_eq_true, if_false] at h ⊢
        exact h
      | true =>
        rw [hc] at h
        simp only [if_true] at h ⊢
        cases hl : parseStep f .orE ts.tail with
        | error e => rw [hl] at h; exact absurd h (by simp)
        | ok p =>
          rw [hl] at h
          rw [ih g' .orE ts.tail p hfg' hl]
          exact h



/-- A chain of n `not` keywords before a comparison parses successfully at
every sufficient fuel, producing n nested NOT nodes. -/
theorem parseNot_chain (n : Nat) :
    ∀ (f : Nat) (rest : List Token), n + 2 ≤ f →
      parseStep f .notE
        (List.replicate n notTok ++
          (idTok ("age") :: opTok .gt ::
            valTok (.prim (.num ⟨false, 25, []⟩)) :: rest)) =
        .ok (iterNot n (.comparison ("age") .gt (.prim (.num ⟨false, 25, []⟩))),
          rest) := by
  induction n with
  | zero =>
    intro f rest hf
    obtain ⟨k, rfl⟩ : ∃ k, f = k + 2 := ⟨f - 2, by omega⟩
    rfl
  | succ n ih =>
    intro f rest hf
    obtain ⟨k, rfl⟩ : ∃ k, f = k + 1 := ⟨f - 1, by omega⟩
    rw [List.replicate_succ, List.cons_append]
    simp only [parseStep]
    rw [show isLogicalTok
      (notTok :: (List.replicate n notTok ++
        (idTok ("age") :: opTok .gt ::
          valTok (.prim (.num ⟨false, 25, []⟩)) :: rest))) ("not") = true from rfl]
    simp only [if_true, List.tail_cons]
    rw [ih k rest (by omega)]
    rfl

/-- One-step unfolding of `parseOrExpression`. -/
theorem parseStep_succ_orE (f : Nat) (ts : List Token) :
    parseStep (f + 1) .orE ts =
      match parseStep f .andE ts with
      | .ok (n, ts1) => parseStep f (.orL n) ts1
      | .error e => .error e := rfl

/-- One-step unfolding of `parseAndExpression`. -/
theorem parseStep_succ_andE (f : Nat) (ts : List Token) :
    parseStep (f + 1) .andE ts =
      match parseStep f .notE ts with
      | .ok (n, ts1) => parseStep f (.andL n) ts1
      | .error e => .error e := rfl

/-- C7: the parser imposes no nesting ceiling: for every n, the input
with n `not` prefixes (nesting depth n+1) parses successfully to the full
n-deep tree, so no fixed bound rejects deeply nested input during the
parsing phase; recursion grows with the nesting of the input. -/
theorem parser_no_nesting_ceiling (n : Nat) :
    parserParse (List.replicate n notTok ++
      [idTok ("age"), opTok .gt, valTok (.prim (.num ⟨false, 25, []⟩)), eofTok]) =
      .ok (iterNot n (.comparison ("age") .gt (.prim (.num ⟨false, 25, []⟩)))) := by
  have hlen : (List.replicate n notTok ++
      [idTok ("age"), opTok .gt, valTok (.prim (.num ⟨false, 25, []⟩)), eofTok]).length
      = n + 4 := by simp
  unfold parserParse
  rw [hlen]
  have hne : ((n + 4) == 1) = false := by
    simp [Nat.beq_eq_true_eq]
  rw [hne]
  simp only [Bool.false_and, Bool.false_eq_true, if_false]
  obtain ⟨k, hk⟩ : ∃ k, 4 * (n + 4) + 8 = ((k + 1) + 1) + 1 := ⟨4 * n + 21, by omega⟩
  rw [hk]
  rw [parseStep_succ_orE, parseStep_succ_andE]
  rw [parseNot_chain n (k + 1) [eofTok] (by omega)]
  rfl



/-- Run `parseOrExpression` one step given its first sub-parse. -/
theorem orE_run (f : Nat) (ts ts1 : List Token) (n : QastNode)
    (h : parseStep f .andE ts = .ok (n, ts1)) :
    parseStep (f + 1) .orE ts = parseStep f (.orL n) ts1 := by
  rw [parseStep_succ_orE, h]

/-- Run `parseAndExpression` one step given its first sub-parse. -/
theorem andE_run (f : Nat) (ts ts1 : List Token) (n : QastNode)
    (h : parseStep f .notE ts = .ok (n, ts1)) :
    parseStep (f + 1) .andE ts = parseStep f (.andL n) ts1 := by
  rw [parseStep_succ_andE, h]

/-- `parseNotExpression` consumes one `not` and wraps the recursive
result. -/
theorem notE_run (f : Nat) (rest ts1 : List Token) (c : QastNode)
    (h : parseStep f .notE rest = .ok (c, ts1)) :
    parseStep (f + 1) .notE (notTok :: rest) = .ok (.not c, ts1) := by
  simp only [parseStep]
  rw [show isLogicalTok (notTok :: rest) ("not") = true from rfl]
  simp only [if_true, List.tail_cons, h]

/-- The AND while-loop consumes one `and` and one right operand. -/
theorem andL_cont (f : Nat) (acc r : QastNode) (rest ts1 : List Token)
    (h : parseStep f .notE rest = .ok (r, ts1)) :
    parseStep (f + 1) (.andL acc) (andTok :: rest) =
      parseStep f (.andL (.logical .AND acc r)) ts1 := by
  simp only [parseStep]
  rw [show isLogicalTok (andTok :: rest) ("and") = true from rfl]
  simp only [if_true, List.tail_cons, h]

/-- The OR while-loop consumes one `or` and one right operand. -/
theorem orL_cont (f : Nat) (acc r : QastNode) (rest ts1 : List Token)
    (h : parseStep f .andE rest = .ok (r, ts1)) :
    parseStep (f + 1) (.orL acc) (orTok :: rest) =
      parseStep f (.orL (.logical .OR acc r)) ts1 := by
  simp only [parseStep]
  rw [show isLogicalTok (orTok :: rest) ("or") = true from rfl]
  simp only [if_true, List.tail_cons, h]

/-- The AND loop stops at an `or` keyword. -/
theorem andL_stop_or (f : Nat) (acc : QastNode) (rest : List Token) :
    parseStep (f + 1) (.andL acc) (orTok :: rest) = .ok (acc, orTok :: rest) := rfl

/-- The AND loop stops at EOF. -/
theorem andL_stop_eof (f : Nat) (acc : QastNode) :
    parseStep (f + 1) (.andL acc) [eofTok] = .ok (acc, [eofTok]) := rfl

/-- The OR loop stops at EOF. -/
theorem orL_stop_eof (f : Nat) (acc : QastNode) :
    parseStep (f + 1) (.orL acc) [eofTok] = .ok (acc, [eofTok]) := rfl

/-- C4: for all subexpressions a, b, c (any token lists the corresponding
grammar level consumes exactly), parsing `a and b or c` yields
OR(AND(a,b), c) -- OR and AND are left-associative with AND binding
tighter -- and parsing `not age gt 30 and x` yields
AND(NOT(age gt 30), x) -- NOT is a tighter-binding right-recursive unary
prefix. -/
theorem parser_assoc_precedence
    (ta tb tc tx : List Token) (na nb nc nx : QastNode) (fa fb fc fx : Nat)
    (ha : parseStep fa .notE
        (ta ++ (andTok :: (tb ++ (orTok :: (tc ++ [eofTok]))))) =
      .ok (na, andTok :: (tb ++ (orTok :: (tc ++ [eofTok])))))
    (hb : parseStep fb .notE (tb ++ (orTok :: (tc ++ [eofTok]))) =
      .ok (nb, orTok :: (tc ++ [eofTok])))
    (hc : parseStep fc .andE (tc ++ [eofTok]) = .ok (nc, [eofTok]))
    (hx : parseStep fx .notE (tx ++ [eofTok]) = .ok (nx, [eofTok])) :
    (∀ G, fa + fb + fc + 6 ≤ G →
      parseStep G .orE (ta ++ (andTok :: (tb ++ (orTok :: (tc ++ [eofTok]))))) =
        .ok (.logical .OR (.logical .AND na nb) nc, [eofTok])) ∧
    (∀ G, fx + 6 ≤ G →
      parseStep G .orE (notTok :: idTok ("age") :: opTok .gt ::
          valTok (.prim (.num ⟨false, 30, []⟩)) :: andTok :: (tx ++ [eofTok])) =
        .ok (.logical .AND
          (.not (.comparison ("age") .gt (.prim (.num ⟨false, 30, []⟩)))) nx,
          [eofTok])) := by
  constructor
  · intro G hG
    obtain ⟨g, rfl⟩ : ∃ g, G = g + 4 := ⟨G - 4, by omega⟩
    have a1 : parseStep (g + 2) .notE
        (ta ++ (andTok :: (tb ++ (orTok :: (tc ++ [eofTok]))))) =
        .ok (na, andTok :: (tb ++ (orTok :: (tc ++ [eofTok])))) :=
      parseStep_mono fa (g + 2) _ _ _ (by omega) ha
    have b1 : parseStep (g + 1) .notE (tb ++ (orTok :: (tc ++ [eofTok]))) =
        .ok (nb, orTok :: (tc ++ [eofTok])) :=
      parseStep_mono fb (g + 1) _ _ _ (by omega) hb
    have c1 : parseStep (g + 2) .andE (tc ++ [eofTok]) = .ok (nc, [eofTok]) :=
      parseStep_mono fc (g + 2) _ _ _ (by omega) hc
    have a5 : parseStep (g + 3) .andE
        (ta ++ (andTok :: (tb ++ (orTok :: (tc ++ [eofTok]))))) =
        .ok (.logical .AND na nb, orTok :: (tc ++ [eofTok])) :=
      (andE_run (g + 2) _ _ _ a1).trans
        ((andL_cont (g + 1) na nb _ _ b1).trans (andL_stop_or g _ _))
    exact (orE_run (g + 3) _ _ _ a5).trans
      ((orL_cont (g + 2) _ nc _ _ c1).trans (orL_stop_eof (g + 1) _))
  · intro G hG
    obtain ⟨g, rfl⟩ : ∃ g, G = g + 6 := ⟨G - 6, by omega⟩
    have d1 : parseStep (g + 3) .notE
        (idTok ("age") :: opTok .gt ::
          valTok (.prim (.num ⟨false, 30, []⟩)) :: andTok :: (tx ++ [eofTok])) =
        .ok (.comparison ("age") .gt (.prim (.num ⟨false, 30, []⟩)),
          andTok :: (tx ++ [eofTok])) := rfl
    have d2 : parseStep (g + 4) .notE
        (notTok :: idTok ("age") :: opTok .gt ::
          valTok (.prim (.num ⟨false, 30, []⟩)) :: andTok :: (tx ++ [eofTok])) =
        .ok (.not (.comparison ("age") .gt (.prim (.num ⟨false, 30, []⟩))),
          andTok :: (tx ++ [eofTok])) :=
      notE_run (g + 3) _ _ _ d1
    have e1 : parseStep (g + 3) .notE (tx ++ [eofTok]) = .ok (nx, [eofTok]) :=
      parseStep_mono fx (g + 3) _ _ _ (by omega) hx
    have d6 : parseStep (g + 5) .andE
        (notTok :: idTok ("age") :: opTok .gt ::
          valTok (.prim (.num ⟨false, 30, []⟩)) :: andTok :: (tx ++ [eofTok])) =
        .ok (.logical .AND
          (.not (.comparison ("age") .gt (.prim (.num ⟨false, 30, []⟩)))) nx,
          [eofTok]) :=
      (andE_run (g + 4) _ _ _ d2).trans
        ((andL_cont (g + 3) _ nx _ _ e1).trans (andL_stop_eof (g + 2) _))
    exact (orE_run (g + 5) _ _ _ d6).trans (orL_stop_eof (g + 4) _)



/-- C4 witness: three concrete comparisons parse as OR(AND(a,b),c), and a
concrete NOT binds before `and`. -/
theorem parser_assoc_precedence_witness :
    parseStep 13 .orE
      ([idTok ("a"), opTok .eq, valTok (.prim (.num ⟨false, 1, []⟩))] ++
        (andTok :: ([idTok ("b"), opTok .eq, valTok (.prim (.num ⟨false, 2, []⟩))] ++
          (orTok :: ([idTok ("c"), opTok .eq, valTok (.prim (.num ⟨false, 3, []⟩))] ++
            [eofTok]))))) =
      .ok (.logical .OR
        (.logical .AND
          (.comparison ("a") .eq (.prim (.num ⟨false, 1, []⟩)))
          (.comparison ("b") .eq (.prim (.num ⟨false, 2, []⟩))))
        (.comparison ("c") .eq (.prim (.num ⟨false, 3, []⟩))), [eofTok]) ∧
    parseStep 8 .orE (notTok :: idTok ("age") :: opTok .gt ::
        valTok (.prim (.num ⟨false, 30, []⟩)) :: andTok ::
        ([idTok ("x"), opTok .eq, valTok (.prim (.num ⟨false, 4, []⟩))] ++ [eofTok])) =
      .ok (.logical .AND
        (.not (.comparison ("age") .gt (.prim (.num ⟨false, 30, []⟩))))
        (.comparison ("x") .eq (.prim (.num ⟨false, 4, []⟩))), [eofTok]) := by
  have H := parser_assoc_precedence
    [idTok ("a"), opTok .eq, valTok (.prim (.num ⟨false, 1, []⟩))]
    [idTok ("b"), opTok .eq, valTok (.prim (.num ⟨false, 2, []⟩))]
    [idTok ("c"), opTok .eq, valTok (.prim (.num ⟨false, 3, []⟩))]
    [idTok ("x"), opTok .eq, valTok (.prim (.num ⟨false, 4, []⟩))]
    (.comparison ("a") .eq (.prim (.num ⟨false, 1, []⟩)))
    (.comparison ("b") .eq (.prim (.num ⟨false, 2, []⟩)))
    (.comparison ("c") .eq (.prim (.num ⟨false, 3, []⟩)))
    (.comparison ("x") .eq (.prim (.num ⟨false, 4, []⟩)))
    2 2 3 2 rfl rfl rfl rfl
  exact ⟨H.1 13 (by omega), H.2 8 (by omega)⟩

/-- Lift an ok-preservation property through `List.mapM` over `Except`. -/
theorem mapM_mono_except {α β : Type} (F G : α → Except String β)
    (hmono : ∀ v r, F v = .ok r → G v = .ok r) :
    ∀ (xs : List α) (ys : List β), xs.mapM F = .ok ys → xs.mapM G = .ok ys := by
  intro xs
  induction xs with
  | nil => intro ys h; simpa using h
  | cons x xs ih =>
    intro ys h
    rw [List.mapM_cons] at h ⊢
    cases hx : F x with
    | error e => rw [hx] at h; simp [Bind.bind, Except.bind] at h
    | ok y =>
      rw [hx] at h
      rw [hmono x y hx]
      simp only [Bind.bind, Except.bind] at h ⊢
      cases hrest : xs.mapM F with
      | error e => rw [hrest] at h; simp at h
      | ok ys' =>
        rw [hrest] at h
        rw [ih ys' hrest]
        exact h

/-- Fuel monotonicity of the finalizer recursion: a successful rewrite at
some fuel succeeds identically at any larger fuel. -/
theorem finStep_mono (ops : TypeOrmOperatorMap) (f : Nat) :
    ∀ (g : Nat) (m : FMode) (v : JVal) (r : JVal),
      f ≤ g → finStep ops f m v = .ok r → finStep ops g m v = .ok r := by
  induction f with
  | zero => intro g m v r _ h; simp [finStep] at h
  | succ f ih =>
    intro g m v r hfg h
    obtain ⟨g', rfl⟩ : ∃ g', g = g' + 1 := ⟨g - 1, by omega⟩
    have hfg' : f ≤ g' := by omega
    have condMono : ∀ (w : JVal) (u : JVal),
        finStep ops f .cond w = .ok u → finStep ops g' .cond w = .ok u :=
      fun w u hw => ih g' .cond w u hfg' hw
    have valMono : ∀ (kv : String × JVal) (u : String × JVal),
        (do
          let w ← finStep ops f .val kv.2
          return (kv.1, w)) = Except.ok u →
        (do
          let w ← finStep ops g' .val kv.2
          return (kv.1, w)) = Except.ok u := by
      intro kv u hkv
      simp only [Bind.bind, Except.bind] at hkv ⊢
      cases hw : finStep ops f .val kv.2 with
      | error e => rw [hw] at hkv; simp at hkv
      | ok w =>
        rw [hw] at hkv
        rw [ih g' .val kv.2 w hfg' hw]
        exact hkv
    cases m with
    | cond =>
      cases v with
      | arr xs =>
        simp only [finStep] at h ⊢
        simp only [Bind.bind, Except.bind] at h ⊢
        cases hm : xs.mapM (finStep ops f .cond) with
        | error e => rw [hm] at h; simp at h
        | ok ys =>
          rw [hm] at h
          rw [mapM_mono_except _ _ condMono xs ys hm]
          exact h
      | obj fs =>
        simp only [finStep] at h ⊢
        cases hn : lookupAssoc fs qastNotKey with
        | some payload =>
          simp only [hn] at h
          cases ht : jsTruthy payload with
          | true =>
            simp only [ht, if_true] at h
            have hr := ih g' .appNot payload r hfg' h
            simp only [hn, ht, if_true]
            exact hr
          | false =>
            simp only [ht, Bool.false_eq_true, if_false] at h
            cases hm : fs.mapM (fun kv => (do
                let w ← finStep ops f .val kv.2
                return (kv.1, w) : Except String (String × JVal))) with
            | error e => rw [hm] at h; simp [Bind.bind, Except.bind] at h
            | ok gs =>
              rw [hm] at h
              have h2 := mapM_mono_except _ _ valMono fs gs hm
              simp only [ht, Bool.false_eq_true, if_false]
              rw [h2]
              exact h
        | none =>
          simp only [hn] at h
          cases hm : fs.mapM (fun kv => (do
              let w ← finStep ops f .val kv.2
              return (kv.1, w) : Except String (String × JVal))) with
          | error e => rw [hm] at h; simp [Bind.bind, Except.bind] at h
          | ok gs =>
            rw [hm] at h
            have h2 := mapM_mono_except _ _ valMono fs gs hm
            show (do
                let gs ← fs.mapM (fun kv => (do
                  let w ← finStep ops g' .val kv.2
                  return (kv.1, w) : Except String (String × JVal)))
                return (JVal.obj gs) : Except String JVal) = .ok r
            rw [h2]
            exact h
      | str s => exact h
      | num n => exact h
      | bool b => exact h
      | null => exact h
    | val =>
      cases v with
      | arr xs =>
        simp only [finStep] at h ⊢
        simp only [Bind.bind, Except.bind] at h ⊢
        cases hm : xs.mapM (finStep ops f .cond) with
        | error e => rw [hm] at h; simp at h
        | ok ys =>
          rw [hm] at h
          rw [mapM_mono_except _ _ condMono xs ys hm]
          exact h
      | obj fs =>
        simp only [finStep] at h ⊢
        cases hop : jsTruthyOpt (lookupAssoc fs qastOpKey) with
        | true =>
          simp only [hop, if_true] at h
          simp only [hop, if_true]
          exact h
        | false =>
          simp only [hop, Bool.false_eq_true, if_false] at h
          simp only [hop, Bool.false_eq_true, if_false]
          cases hn : lookupAssoc fs qastNotKey with
          | some payload =>
            simp only [hn] at h
            simp only [hn]
            cases ht : jsTruthy payload with
            | true =>
              simp only [ht, if_true] at h
              simp only [ht, if_true]
              exact ih g' .appNot payload r hfg' h
            | false =>
              simp only [ht, Bool.false_eq_true, if_false] at h
              simp only [ht, Bool.false_eq_true, if_false]
              have := ih g' .cond (.obj fs) r hfg' h
              simpa [finStep, hn, ht] using this
          | none =>
            simp only [hn] at h
            simp only [hn]
            have := ih g' .cond (.obj fs) r hfg' h
            simpa [finStep, hn] using this
      | str s => exact h
      | num n => exact h
      | bool b => exact h
      | null => exact h
    | appNot =>
      simp only [finStep] at h ⊢
      cases hm : finStep ops f .cond v with
      | error e => rw [hm] at h; simp at h
      | ok t =>
        rw [hm] at h
        rw [ih g' .cond v t hfg' hm]
        exact h



/-- C8: whenever the payload of a `__qast_not__` marker finalizes to an
OR-array of condition objects, `finalizeTypeOrmFilter` raises the
descriptive NOT-over-OR error instead of approximating. -/
theorem typeorm_not_over_or_rejected
    (ops : TypeOrmOperatorMap) (payload : JVal) (xs : List JVal)
    (htrue : jsTruthy payload = true)
    (harr : transformConditionC ops payload = .ok (.arr xs)) :
    finalizeTypeOrmFilter ⟨.obj [(qastNotKey, payload)]⟩ ops =
      .error ("Cannot convert NOT over OR conditions using finalizeTypeOrmFilter.") := by
  obtain ⟨k, hk⟩ : ∃ k, k = 3 * jsize payload + 7 := ⟨_, rfl⟩
  have hc : finStep ops k .cond payload = .ok (.arr xs) := by
    rw [hk]
    exact finStep_mono ops (3 * jsize payload + 3) (3 * jsize payload + 7)
      .cond payload (.arr xs) (by omega) harr
  have step2 : finStep ops (k + 1) .appNot payload =
      .error ("Cannot convert NOT over OR conditions using finalizeTypeOrmFilter.") := by
    simp only [finStep]
    rw [hc]
  have step1 : finStep ops ((k + 1) + 1) .cond (.obj [(qastNotKey, payload)]) =
      finStep ops (k + 1) .appNot payload := by
    conv_lhs => rw [finStep]
    simp [lookupAssoc, htrue]
  have hmain : transformConditionC ops (.obj [(qastNotKey, payload)]) =
      .error ("Cannot convert NOT over OR conditions using finalizeTypeOrmFilter.") := by
    unfold transformConditionC
    have hsz : jsize (JVal.obj [(qastNotKey, payload)]) = jsize payload + 2 := by
      simp [jsize, jsizeF]
      omega
    rw [hsz]
    have hfuel : 3 * (jsize payload + 2) + 3 = (k + 1) + 1 := by omega
    rw [hfuel]
    exact step1.trans step2
  simp [finalizeTypeOrmFilter, hmain]

/-- C8 witness: the empty operator table and a one-element OR-array
payload trigger the NOT-over-OR error. -/
theorem typeorm_not_over_or_rejected_witness :
    finalizeTypeOrmFilter
      ⟨.obj [(qastNotKey, .arr [.obj [(("age"), .num ⟨false, 1, []⟩)]])]⟩
      emptyOperatorMap =
      .error ("Cannot convert NOT over OR conditions using finalizeTypeOrmFilter.") := by
  refine typeorm_not_over_or_rejected emptyOperatorMap
    (.arr [.obj [(("age"), .num ⟨false, 1, []⟩)]])
    [.obj [(("age"), .num ⟨false, 1, []⟩)]] rfl ?_
  unfold transformConditionC
  rw [show jsize (JVal.arr [.obj [(("age"), .num ⟨false, 1, []⟩)]]) = 4 from by
    simp [jsize, jsizeL, jsizeF]]
  rfl

end Qast


namespace Qast

theorem qrun_append (a b : List Char) (st : Bool × PH) :
    qrun (a ++ b) st =
      ((qrun b (qrun a st).1).1, (qrun a st).2 ++ (qrun b (qrun a st).1).2) := by
  induction a generalizing st with
  | nil => simp [qrun]
  | cons c cs ih =>
    simp only [List.cons_append, qrun, List.append_eq]
    rw [ih]
    simp [List.append_assoc]

theorem qrun_append_full (a b : List Char) (st st1 st2 : Bool × PH)
    (o1 o2 : List Nat)
    (h1 : qrun a st = (st1, o1)) (h2 : qrun b st1 = (st2, o2)) :
    qrun (a ++ b) st = (st2, o1 ++ o2) := by
  rw [qrun_append, h1]
  simp [h2]

theorem digitChar_facts (d : Nat) (h : d < 10) :
    (Char.ofNat (48 + d)).isDigit = true ∧ digitVal (Char.ofNat (48 + d)) = d := by
  interval_cases d <;> exact ⟨rfl, rfl⟩

theorem digits_run (ds : List Char) :
    ∀ (a : Nat), (∀ c ∈ ds, c.isDigit = true) →
      qrun ds (false, .num a) =
        ((false, .num (ds.foldl (fun x c => 10 * x + digitVal c) a)), []) := by
  induction ds with
  | nil => intro a _; simp [qrun]
  | cons c cs ih =>
    intro a hall
    have hc : c.isDigit = true := hall c (by simp)
    simp only [qrun, List.foldl_cons]
    have hq : ¬(c = chDQ) := by
      intro hdq
      subst hdq
      exact absurd hc (by decide)
    have hd : ¬(c = chDollar) := by
      intro hdq
      subst hdq
      exact absurd hc (by decide)
    have hstep : qstep (false, PH.num a) c = ((false, .num (10 * a + digitVal c)), []) := by
      simp [qstep, hc, hq, hd]
    rw [hstep, ih (10 * a + digitVal c) (fun x hx => hall x (by simp [hx]))]
    simp

theorem dollar_digits_run (ds : List Char) (hne : ds ≠ [])
    (hall : ∀ c ∈ ds, c.isDigit = true) :
    qrun (chDollar :: ds) (false, .idle) =
      ((false, .num (ds.foldl (fun x c => 10 * x + digitVal c) 0)), []) := by
  cases ds with
  | nil => exact absurd rfl hne
  | cons c cs =>
    have hc : c.isDigit = true := hall c (by simp)
    simp only [qrun]
    have h1 : qstep (false, PH.idle) chDollar = ((false, .dollar), []) := rfl
    have hq : ¬(c = chDQ) := by
      intro hdq
      subst hdq
      exact absurd hc (by decide)
    have hd : ¬(c = chDollar) := by
      intro hdq
      subst hdq
      exact absurd hc (by decide)
    have h2 : qstep (false, PH.dollar) c = ((false, .num (digitVal c)), []) := by
      simp [qstep, hc, hq, hd]
    rw [h1, h2, digits_run cs (digitVal c) (fun x hx => hall x (by simp [hx]))]
    simp [List.foldl_cons]

end Qast

namespace Qast

theorem natDigitsAux_spec (fuel : Nat) :
    ∀ (n : Nat), n < fuel →
      natDigitsAux fuel n ≠ [] ∧
      (∀ c ∈ natDigitsAux fuel n, c.isDigit = true) ∧
      (natDigitsAux fuel n).foldl (fun x c => 10 * x + digitVal c) 0 = n := by
  induction fuel with
  | zero => intro n h; omega
  | succ fuel ih =>
    intro n h
    simp only [natDigitsAux]
    by_cases h10 : n < 10
    · have hd := digitChar_facts n h10
      simp only [h10, if_true]
      refine ⟨by simp, ?_, ?_⟩
      · intro c hc
        simp at hc
        subst hc
        exact hd.1
      · simp [hd.2]
    · have hpos : 0 < n := by omega
      have hlt0 : n / 10 < n := Nat.div_lt_self hpos (by omega)
      have hlt : n / 10 < fuel := by omega
      obtain ⟨hne, hall, hfold⟩ := ih (n / 10) hlt
      have hm : n % 10 < 10 := Nat.mod_lt _ (by omega)
      have hd := digitChar_facts (n % 10) hm
      simp only [h10, if_false]
      refine ⟨by simp, ?_, ?_⟩
      · intro c hc
        simp only [List.mem_append, List.mem_singleton] at hc
        cases hc with
        | inl hmem => exact hall c hmem
        | inr heq => subst heq; exact hd.1
      · rw [List.foldl_append, hfold]
        simp only [List.foldl_cons, List.foldl_nil, hd.2]
        omega

theorem strData_append (a b : String) : (a ++ b).data = a.data ++ b.data := by
  cases a
  cases b
  rfl

theorem placeholder_scan (k : Nat) :
    qrun (chDollar :: natDigits k) (false, .idle) = ((false, .num k), []) := by
  obtain ⟨hne, hall, hfold⟩ := natDigitsAux_spec (k + 1) k (by omega)
  have := dollar_digits_run (natDigits k) hne hall
  rw [natDigits] at *
  rw [this, hfold]

theorem placeholder_string_scan (k : Nat) :
    qrun ("$" ++ natStr k).data (false, .idle) = ((false, .num k), []) := by
  have hdata : ("$" ++ natStr k).data = chDollar :: natDigits k := by
    rw [strData_append]
    rfl
  rw [hdata]
  exact placeholder_scan k

theorem escQuoteSeg_run (cs : List Char) :
    qrun (escQuoteSeg cs) (true, .idle) = ((true, .idle), []) := by
  induction cs with
  | nil => rfl
  | cons c cs ih =>
    have hexp : escQuoteSeg (c :: cs) =
        (if c == chDQ then [chDQ, chDQ] else [c]) ++ escQuoteSeg cs := by
      simp [escQuoteSeg, List.map_cons, List.flatten_cons]
    rw [hexp]
    by_cases hc : (c == chDQ) = true
    · rw [if_pos hc]
      have h1 : qrun [chDQ, chDQ] (true, PH.idle) = ((true, PH.idle), []) := rfl
      simpa using qrun_append_full _ _ _ _ _ _ _ h1 ih
    · rw [if_neg hc]
      have hstep : qstep (true, PH.idle) c = ((true, PH.idle), []) := by
        simp [qstep]
        intro h
        exact absurd h (by simpa using hc)
      have h1 : qrun [c] (true, PH.idle) = ((true, PH.idle), []) := by
        simp [qrun, hstep]
      simpa using qrun_append_full _ _ _ _ _ _ _ h1 ih

theorem quoteSeg_run (cs : List Char) :
    qrun (quoteSeg cs) (false, .idle) = ((false, .idle), []) := by
  have hexp : quoteSeg cs = [chDQ] ++ (escQuoteSeg cs ++ [chDQ]) := by
    simp [quoteSeg]
  rw [hexp]
  have h1 : qrun [chDQ] (false, PH.idle) = ((true, PH.idle), []) := rfl
  have h2 : qrun [chDQ] (true, PH.idle) = ((false, PH.idle), []) := rfl
  have h3 := qrun_append_full _ _ _ _ _ _ _ (escQuoteSeg_run cs) h2
  simpa using qrun_append_full _ _ _ _ _ _ _ h1 h3

theorem joinDot_quoteSeg_run (ls : List (List Char)) :
    qrun (joinDotSegs (ls.map quoteSeg)) (false, .idle) = ((false, .idle), []) := by
  induction ls with
  | nil => rfl
  | cons s rest ih =>
    cases rest with
    | nil =>
      simp only [List.map_cons, List.map_nil, joinDotSegs]
      exact quoteSeg_run s
    | cons t rest2 =>
      have hexp : joinDotSegs (List.map quoteSeg (s :: t :: rest2))
          = quoteSeg s ++ ([chDot] ++ joinDotSegs (List.map quoteSeg (t :: rest2))) := by
        simp [joinDotSegs, List.map_cons]
      have hdot : qrun [chDot] (false, PH.idle) = ((false, PH.idle), []) := rfl
      have h2 := qrun_append_full _ _ _ _ _ _ _ hdot ih
      have h3 := qrun_append_full _ _ _ _ _ _ _ (quoteSeg_run s) h2
      rw [hexp]
      simpa using h3

theorem quoteIdentifier_run (f : String) :
    qrun (quoteIdentifier f).data (false, .idle) = ((false, .idle), []) := by
  simp only [quoteIdentifier]
  exact joinDot_quoteSeg_run (splitOnChar chDot f.data)

end Qast

namespace Qast

theorem range'_app (b m n : Nat) :
    List.range' b m ++ List.range' (b + m) n = List.range' b (m + n) := by
  have h2 := List.range'_append b m n 1
  rw [one_mul, Nat.add_comm n m] at h2
  exact h2

theorem clause_single_ph (f mid : String) (p : List QastValue)
    (hmid : ∀ ph, qrun mid.data (false, ph) = ((false, PH.idle), phFlush ph)) :
    SqlFragInv ((quoteIdentifier f ++ mid) ++ ("$" ++ natStr (p.length + 1)))
      (p.length + 1) 1 := by
  have h1 := quoteIdentifier_run f
  have h2 : qrun mid.data (false, PH.idle) = ((false, PH.idle), []) := hmid .idle
  have h12 := qrun_append_full _ _ _ _ _ _ _ h1 h2
  have h3 := placeholder_string_scan (p.length + 1)
  have hfull := qrun_append_full _ _ _ _ _ _ _ h12 h3
  refine ⟨(false, .num (p.length + 1)), [], ?_, rfl, ?_⟩
  · rw [strData_append, strData_append]
    simpa using hfull
  · simp [phFlush, List.range']

theorem clause_no_ph (f mid : String)
    (hmid : ∀ ph, qrun mid.data (false, ph) = ((false, PH.idle), phFlush ph)) :
    ∀ base, SqlFragInv (quoteIdentifier f ++ mid) base 0 := by
  intro base
  have h1 := quoteIdentifier_run f
  have h2 : qrun mid.data (false, PH.idle) = ((false, PH.idle), []) := hmid .idle
  have hfull := qrun_append_full _ _ _ _ _ _ _ h1 h2
  refine ⟨(false, .idle), [], ?_, rfl, ?_⟩
  · rw [strData_append]
    simpa using hfull
  · simp [phFlush, List.range']

theorem phFold_params (vs : List Prim) :
    ∀ p, (phFold vs p).2 = p ++ vs.map QastValue.prim := by
  induction vs with
  | nil => intro p; simp [phFold]
  | cons v vs ih =>
    intro p
    simp only [phFold, placeholderS, List.map_cons]
    rw [ih (p ++ [QastValue.prim v])]
    simp

theorem phFold_scan (vs : List Prim) :
    ∀ p, vs ≠ [] →
      qrun (joinCommaSp (phFold vs p).1).data (false, .idle) =
        ((false, .num (p.length + vs.length)),
          List.range' (p.length + 1) (vs.length - 1)) := by
  induction vs with
  | nil => intro p h; exact absurd rfl h
  | cons v vs ih =>
    intro p _
    cases vs with
    | nil =>
      simp only [phFold, placeholderS, joinCommaSp]
      have := placeholder_string_scan (p.length + 1)
      simpa using this
    | cons w ws =>
      have hjoin : joinCommaSp ((phFold (v :: w :: ws) p).1) =
          (("$" ++ natStr (p.length + 1)) ++ ", ") ++
            joinCommaSp ((phFold (w :: ws) (p ++ [QastValue.prim v])).1) := by
        simp only [phFold, placeholderS]
        rfl
      rw [hjoin]
      have h1 := placeholder_string_scan (p.length + 1)
      have h2 : qrun (", ").data (false, PH.num (p.length + 1)) =
          ((false, PH.idle), [p.length + 1]) := rfl
      have h12 := qrun_append_full _ _ _ _ _ _ _ h1 h2
      have h3 := ih (p ++ [QastValue.prim v]) (by simp)
      simp only [List.length_append, List.length_cons, List.length_nil] at h3
      have hfull := qrun_append_full _ _ _ _ _ _ _ h12 h3
      rw [strData_append, strData_append]
      rw [hfull]
      have hnum : PH.num (p.length + (0 + 1) + (ws.length + 1)) =
          PH.num (p.length + (v :: w :: ws).length) := by
        congr 1
        simp only [List.length_cons]
        omega
      rw [hnum]
      rfl

end Qast

namespace Qast

theorem midRun_eq2 : ∀ ph, qrun (" = ").data (false, ph) = ((false, PH.idle), phFlush ph) := by
  intro ph; cases ph <;> rfl

theorem midRun_ne2 : ∀ ph, qrun (" <> ").data (false, ph) = ((false, PH.idle), phFlush ph) := by
  intro ph; cases ph <;> rfl

theorem midRun_gt2 : ∀ ph, qrun (" > ").data (false, ph) = ((false, PH.idle), phFlush ph) := by
  intro ph; cases ph <;> rfl

theorem midRun_ge2 : ∀ ph, qrun (" >= ").data (false, ph) = ((false, PH.idle), phFlush ph) := by
  intro ph; cases ph <;> rfl

theorem midRun_lt2 : ∀ ph, qrun (" < ").data (false, ph) = ((false, PH.idle), phFlush ph) := by
  intro ph; cases ph <;> rfl

theorem midRun_le2 : ∀ ph, qrun (" <= ").data (false, ph) = ((false, PH.idle), phFlush ph) := by
  intro ph; cases ph <;> rfl

theorem midRun_like : ∀ ph, qrun (" LIKE ").data (false, ph) = ((false, PH.idle), phFlush ph) := by
  intro ph; cases ph <;> rfl

theorem midRun_between : ∀ ph, qrun (" BETWEEN ").data (false, ph) = ((false, PH.idle), phFlush ph) := by
  intro ph; cases ph <;> rfl

theorem midRun_and : ∀ ph, qrun (" AND ").data (false, ph) = ((false, PH.idle), phFlush ph) := by
  intro ph; cases ph <;> rfl

theorem midRun_or : ∀ ph, qrun (" OR ").data (false, ph) = ((false, PH.idle), phFlush ph) := by
  intro ph; cases ph <;> rfl

theorem midRun_in : ∀ ph, qrun (" IN (").data (false, ph) = ((false, PH.idle), phFlush ph) := by
  intro ph; cases ph <;> rfl

theorem midRun_notIn : ∀ ph, qrun (" NOT IN (").data (false, ph) = ((false, PH.idle), phFlush ph) := by
  intro ph; cases ph <;> rfl

theorem midRun_close : ∀ ph, qrun (")").data (false, ph) = ((false, PH.idle), phFlush ph) := by
  intro ph; cases ph <;> rfl

theorem midRun_close2 : ∀ ph, qrun ("))").data (false, ph) = ((false, PH.idle), phFlush ph) := by
  intro ph; cases ph <;> rfl

theorem midRun_isNull : ∀ ph, qrun (" IS NULL").data (false, ph) = ((false, PH.idle), phFlush ph) := by
  intro ph; cases ph <;> rfl

theorem midRun_isNotNull : ∀ ph, qrun (" IS NOT NULL").data (false, ph) = ((false, PH.idle), phFlush ph) := by
  intro ph; cases ph <;> rfl

theorem openRun : qrun ("(").data (false, PH.idle) = ((false, PH.idle), []) := rfl

theorem openNotRun : qrun ("(NOT (").data (false, PH.idle) = ((false, PH.idle), []) := rfl

theorem tautRun : qrun ("1 = 1").data (false, PH.idle) = ((false, PH.idle), []) := rfl

end Qast

namespace Qast

theorem range'_snoc (b n : Nat) (h : 1 ≤ n) :
    List.range' b (n - 1) ++ [b + (n - 1)] = List.range' b n := by
  have h2 := range'_app b (n - 1) 1
  rw [List.range'_one] at h2
  rw [Nat.sub_add_cancel h] at h2
  exact h2

theorem logical_frag_inv (ls rs M : String) (b dl dr : Nat)
    (hM : ∀ ph, qrun M.data (false, ph) = ((false, PH.idle), phFlush ph))
    (hL : SqlFragInv ls b dl) (hR : SqlFragInv rs (b + dl) dr) :
    SqlFragInv (((("(" ++ ls) ++ M) ++ rs) ++ ")") b (dl + dr) := by
  obtain ⟨⟨bL, phL⟩, outL, hqL, hbL, houtL⟩ := hL
  obtain ⟨⟨bR, phR⟩, outR, hqR, hbR, houtR⟩ := hR
  simp only at hbL hbR
  subst hbL hbR
  have q1 := qrun_append_full _ _ _ _ _ _ _ openRun hqL
  have q2 := qrun_append_full _ _ _ _ _ _ _ q1 (hM phL)
  have q3 := qrun_append_full _ _ _ _ _ _ _ q2 hqR
  have q4 := qrun_append_full _ _ _ _ _ _ _ q3 (midRun_close phR)
  refine ⟨(false, PH.idle),
    ((([] ++ outL) ++ phFlush phL) ++ outR) ++ phFlush phR, ?_, rfl, ?_⟩
  · rw [strData_append, strData_append, strData_append, strData_append]
    exact q4
  · have hid : phFlush ((false, PH.idle) : Bool × PH).2 = [] := rfl
    have houtL2 : outL ++ phFlush phL = List.range' b dl := houtL
    have houtR2 : outR ++ phFlush phR = List.range' (b + dl) dr := houtR
    rw [hid, List.append_nil]
    simp only [List.nil_append, List.append_assoc]
    rw [← List.append_assoc outL, houtL2, houtR2, range'_app]

theorem not_frag_inv (cs : String) (b dl : Nat) (hC : SqlFragInv cs b dl) :
    SqlFragInv (("(NOT (" ++ cs) ++ "))") b dl := by
  obtain ⟨⟨bC, phC⟩, outC, hqC, hbC, houtC⟩ := hC
  simp only at hbC
  subst hbC
  have q1 := qrun_append_full _ _ _ _ _ _ _ openNotRun hqC
  have q2 := qrun_append_full _ _ _ _ _ _ _ q1 (midRun_close2 phC)
  refine ⟨(false, PH.idle), ([] ++ outC) ++ phFlush phC, ?_, rfl, ?_⟩
  · rw [strData_append, strData_append]
    exact q2
  · have hid : phFlush ((false, PH.idle) : Bool × PH).2 = [] := rfl
    have houtC2 : outC ++ phFlush phC = List.range' b dl := houtC
    rw [hid, List.append_nil]
    simp only [List.nil_append]
    exact houtC2

theorem in_frag_inv (f M : String) (p : List QastValue) (vs : List Prim)
    (hne : vs ≠ [])
    (hM : ∀ ph, qrun M.data (false, ph) = ((false, PH.idle), phFlush ph)) :
    SqlFragInv (((quoteIdentifier f ++ M) ++ joinCommaSp (phFold vs p).1) ++ ")")
      (p.length + 1) vs.length := by
  have h0 := quoteIdentifier_run f
  have h1 : qrun M.data (false, PH.idle) = ((false, PH.idle), []) := hM .idle
  have q1 := qrun_append_full _ _ _ _ _ _ _ h0 h1
  have h2 := phFold_scan vs p hne
  have q2 := qrun_append_full _ _ _ _ _ _ _ q1 h2
  have h3 := midRun_close (PH.num (p.length + vs.length))
  have q3 := qrun_append_full _ _ _ _ _ _ _ q2 h3
  refine ⟨(false, PH.idle),
    (([] ++ []) ++ List.range' (p.length + 1) (vs.length - 1)) ++
      phFlush (PH.num (p.length + vs.length)), ?_, rfl, ?_⟩
  · rw [strData_append, strData_append, strData_append]
    exact q3
  · have hvs : 1 ≤ vs.length := by
      cases vs with
      | nil => exact absurd rfl hne
      | cons a l => simp
    have hid : phFlush ((false, PH.idle) : Bool × PH).2 = [] := rfl
    have hnum : phFlush (PH.num (p.length + vs.length)) = [p.length + vs.length] := rfl
    rw [hid, List.append_nil, hnum]
    simp only [List.nil_append]
    have he : p.length + vs.length = (p.length + 1) + (vs.length - 1) := by omega
    rw [he, range'_snoc _ _ hvs]

theorem clause_between_ph2 (f : String) (p : List QastValue) (k : Nat)
    (hk : k = p.length + 2) :
    SqlFragInv ((((quoteIdentifier f ++ " BETWEEN ") ++
        ("$" ++ natStr (p.length + 1))) ++ " AND ") ++ ("$" ++ natStr k))
      (p.length + 1) 2 := by
  subst hk
  have h0 := quoteIdentifier_run f
  have h1 : qrun (" BETWEEN ").data (false, PH.idle) = ((false, PH.idle), []) :=
    midRun_between .idle
  have q1 := qrun_append_full _ _ _ _ _ _ _ h0 h1
  have q2 := qrun_append_full _ _ _ _ _ _ _ q1 (placeholder_string_scan (p.length + 1))
  have q3 := qrun_append_full _ _ _ _ _ _ _ q2 (midRun_and (PH.num (p.length + 1)))
  have q4 := qrun_append_full _ _ _ _ _ _ _ q3 (placeholder_string_scan (p.length + 2))
  refine ⟨(false, PH.num (p.length + 2)),
    ((([] ++ []) ++ []) ++ phFlush (PH.num (p.length + 1))) ++ [], ?_, rfl, ?_⟩
  · rw [strData_append, strData_append, strData_append, strData_append]
    exact q4
  · rfl

theorem taut_frag_inv (b : Nat) : SqlFragInv ("1 = 1") b 0 :=
  ⟨(false, PH.idle), [], tautRun, rfl, by simp [phFlush, List.range']⟩

end Qast

namespace Qast

theorem transformNodeS_inv (ast : QastNode) :
    ∀ (p : List QastValue) (s : String) (p2 : List QastValue),
      transformNodeS ast p = .ok (s, p2) →
      ∃ d, p2 = p ++ d ∧ SqlFragInv s (p.length + 1) d.length := by
  induction ast with
  | comparison f op v =>
    intro p s p2 h
    cases op with
    | eq =>
      simp only [transformNodeS, transformComparisonS, eqClauseS, placeholderS,
        Except.ok.injEq] at h
      split at h
      · simp only [Prod.mk.injEq] at h
        obtain ⟨hs, hp⟩ := h
        subst hs
        subst hp
        exact ⟨[], by simp, clause_no_ph f (" IS NULL") midRun_isNull (p.length + 1)⟩
      · simp only [Prod.mk.injEq] at h
        obtain ⟨hs, hp⟩ := h
        subst hs
        subst hp
        exact ⟨[v], rfl, clause_single_ph f (" = ") p midRun_eq2⟩
    | ne =>
      simp only [transformNodeS, transformComparisonS, neClauseS, placeholderS,
        Except.ok.injEq] at h
      split at h
      · simp only [Prod.mk.injEq] at h
        obtain ⟨hs, hp⟩ := h
        subst hs
        subst hp
        exact ⟨[], by simp, clause_no_ph f (" IS NOT NULL") midRun_isNotNull (p.length + 1)⟩
      · simp only [Prod.mk.injEq] at h
        obtain ⟨hs, hp⟩ := h
        subst hs
        subst hp
        exact ⟨[v], rfl, clause_single_ph f (" <> ") p midRun_ne2⟩
    | gt =>
      simp only [transformNodeS, transformComparisonS, placeholderS,
        Except.ok.injEq, Prod.mk.injEq] at h
      obtain ⟨hs, hp⟩ := h
      subst hs
      subst hp
      exact ⟨[v], rfl, clause_single_ph f (" > ") p midRun_gt2⟩
    | gte =>
      simp only [transformNodeS, transformComparisonS, placeholderS,
        Except.ok.injEq, Prod.mk.injEq] at h
      obtain ⟨hs, hp⟩ := h
      subst hs
      subst hp
      exact ⟨[v], rfl, clause_single_ph f (" >= ") p midRun_ge2⟩
    | lt =>
      simp only [transformNodeS, transformComparisonS, placeholderS,
        Except.ok.injEq, Prod.mk.injEq] at h
      obtain ⟨hs, hp⟩ := h
      subst hs
      subst hp
      exact ⟨[v], rfl, clause_single_ph f (" < ") p midRun_lt2⟩
    | lte =>
      simp only [transformNodeS, transformComparisonS, placeholderS,
        Except.ok.injEq, Prod.mk.injEq] at h
      obtain ⟨hs, hp⟩ := h
      subst hs
      subst hp
      exact ⟨[v], rfl, clause_single_ph f (" <= ") p midRun_le2⟩
    | contains =>
      simp only [transformNodeS, transformComparisonS, placeholderS,
        Except.ok.injEq, Prod.mk.injEq] at h
      obtain ⟨hs, hp⟩ := h
      subst hs
      subst hp
      exact ⟨[.prim (.str ("%" ++ jsToStr v ++ "%"))], rfl,
        clause_single_ph f (" LIKE ") p midRun_like⟩
    | startsWith =>
      simp only [transformNodeS, transformComparisonS, placeholderS,
        Except.ok.injEq, Prod.mk.injEq] at h
      obtain ⟨hs, hp⟩ := h
      subst hs
      subst hp
      exact ⟨[.prim (.str (jsToStr v ++ "%"))], rfl,
        clause_single_ph f (" LIKE ") p midRun_like⟩
    | endsWith =>
      simp only [transformNodeS, transformComparisonS, placeholderS,
        Except.ok.injEq, Prod.mk.injEq] at h
      obtain ⟨hs, hp⟩ := h
      subst hs
      subst hp
      exact ⟨[.prim (.str ("%" ++ jsToStr v))], rfl,
        clause_single_ph f (" LIKE ") p midRun_like⟩
    | inOp =>
      simp only [transformNodeS, transformComparisonS] at h
      cases v with
      | prim pr => exact Except.noConfusion h
      | arr vs =>
        simp only [listClauseS] at h
        split at h
        · exact Except.noConfusion h
        next hcond =>
          have hne : vs ≠ [] := by simpa using hcond
          simp only [Bool.false_eq_true, if_false, Except.ok.injEq,
            Prod.mk.injEq] at h
          obtain ⟨hs, hp⟩ := h
          subst hs
          subst hp
          refine ⟨vs.map QastValue.prim, phFold_params vs p, ?_⟩
          have hres := in_frag_inv f (" IN (") p vs hne midRun_in
          have hlen : (vs.map QastValue.prim).length = vs.length :=
            List.length_map vs QastValue.prim
          rw [hlen]
          exact hres
    | notIn =>
      simp only [transformNodeS, transformComparisonS] at h
      cases v with
      | prim pr => exact Except.noConfusion h
      | arr vs =>
        simp only [listClauseS] at h
        split at h
        · exact Except.noConfusion h
        next hcond =>
          have hne : vs ≠ [] := by simpa using hcond
          simp only [if_true, Except.ok.injEq, Prod.mk.injEq] at h
          obtain ⟨hs, hp⟩ := h
          subst hs
          subst hp
          refine ⟨vs.map QastValue.prim, phFold_params vs p, ?_⟩
          have hres := in_frag_inv f (" NOT IN (") p vs hne midRun_notIn
          have hlen : (vs.map QastValue.prim).length = vs.length :=
            List.length_map vs QastValue.prim
          rw [hlen]
          exact hres
    | between =>
      simp only [transformNodeS, transformComparisonS] at h
      cases v with
      | prim pr =>
        cases pr with
        | str st =>
          simp only [betweenClauseS, placeholderS, Except.ok.injEq] at h
          split at h
          · simp only [Except.ok.injEq, Prod.mk.injEq] at h
            obtain ⟨hs, hp⟩ := h
            subst hs
            subst hp
            refine ⟨[_, _], by rw [List.append_assoc]; rfl, ?_⟩
            exact clause_between_ph2 f p _ (by simp)
          · split at h
            · simp only [Except.ok.injEq, Prod.mk.injEq] at h
              obtain ⟨hs, hp⟩ := h
              subst hs
              subst hp
              exact ⟨[_], rfl, clause_single_ph f (" >= ") p midRun_ge2⟩
            · split at h
              · simp only [Except.ok.injEq, Prod.mk.injEq] at h
                obtain ⟨hs, hp⟩ := h
                subst hs
                subst hp
                exact ⟨[_], rfl, clause_single_ph f (" <= ") p midRun_le2⟩
              · simp only [Except.ok.injEq, Prod.mk.injEq] at h
                obtain ⟨hs, hp⟩ := h
                subst hs
                subst hp
                exact ⟨[], by simp, taut_frag_inv (p.length + 1)⟩
        | num n => exact Except.noConfusion h
        | bool b => exact Except.noConfusion h
        | null => exact Except.noConfusion h
      | arr xs =>
        simp only [betweenClauseS, placeholderS, Except.ok.injEq] at h
        split at h
        · simp only [Except.ok.injEq, Prod.mk.injEq] at h
          obtain ⟨hs, hp⟩ := h
          subst hs
          subst hp
          refine ⟨[_, _], by rw [List.append_assoc]; rfl, ?_⟩
          exact clause_between_ph2 f p _ (by simp)
        · split at h
          · simp only [Except.ok.injEq, Prod.mk.injEq] at h
            obtain ⟨hs, hp⟩ := h
            subst hs
            subst hp
            exact ⟨[_], rfl, clause_single_ph f (" >= ") p midRun_ge2⟩
          · split at h
            · simp only [Except.ok.injEq, Prod.mk.injEq] at h
              obtain ⟨hs, hp⟩ := h
              subst hs
              subst hp
              exact ⟨[_], rfl, clause_single_ph f (" <= ") p midRun_le2⟩
            · simp only [Except.ok.injEq, Prod.mk.injEq] at h
              obtain ⟨hs, hp⟩ := h
              subst hs
              subst hp
              exact ⟨[], by simp, taut_frag_inv (p.length + 1)⟩
  | logical lop l r ihl ihr =>
    intro p s p2 h
    simp only [transformNodeS] at h
    cases hl : transformNodeS l p with
    | error e => rw [hl] at h; exact Except.noConfusion h
    | ok lr =>
      obtain ⟨ls, p1⟩ := lr
      rw [hl] at h
      dsimp only at h
      cases hr : transformNodeS r p1 with
      | error e => rw [hr] at h; exact Except.noConfusion h
      | ok rr =>
        obtain ⟨rs, p2x⟩ := rr
        rw [hr] at h
        simp only [Except.ok.injEq, Prod.mk.injEq] at h
        obtain ⟨hs, hp⟩ := h
        subst hs
        subst hp
        obtain ⟨dL, hdL, invL⟩ := ihl p ls p1 hl
        obtain ⟨dR, hdR, invR⟩ := ihr p1 rs p2x hr
        refine ⟨dL ++ dR, ?_, ?_⟩
        · rw [hdR, hdL, List.append_assoc]
        · have hM : ∀ ph, qrun (match lop with
              | .AND => " AND "
              | .OR => " OR ").data (false, ph) = ((false, PH.idle), phFlush ph) := by
            cases lop
            · exact midRun_and
            · exact midRun_or
          have hbase : p1.length + 1 = (p.length + 1) + dL.length := by
            rw [hdL]
            simp only [List.length_append]
            omega
          rw [hbase] at invR
          have hres := logical_frag_inv ls rs _ (p.length + 1)
            dL.length dR.length hM invL invR
          have hlen : (dL ++ dR).length = dL.length + dR.length :=
            List.length_append dL dR
          rw [hlen]
          exact hres
  | not c ihc =>
    intro p s p2 h
    simp only [transformNodeS] at h
    cases hc : transformNodeS c p with
    | error e => rw [hc] at h; exact Except.noConfusion h
    | ok cr =>
      obtain ⟨cs, p1⟩ := cr
      rw [hc] at h
      dsimp only at h
      simp only [Except.ok.injEq, Prod.mk.injEq] at h
      obtain ⟨hs, hp⟩ := h
      subst hs
      subst hp
      obtain ⟨dC, hdC, invC⟩ := ihc p cs p1 hc
      exact ⟨dC, hdC, not_frag_inv cs _ _ invC⟩

end Qast

namespace Qast

/-- C10: every filter the SQL/Drizzle compiler returns satisfies the
placeholder invariant: scanning the text left to right (skipping quoted
identifiers) yields exactly the consecutive placeholder numbers 1
through n where n is the number of parameters, so the i-th placeholder
binds the i-th parameter of the parallel list. -/
theorem sql_placeholder_invariant (ast : QastNode) (r : SqlFilter)
    (h : toSqlFilter ast = .ok r) :
    scanPlaceholders r.text = List.range' 1 r.params.length := by
  unfold toSqlFilter at h
  cases ht : transformNodeS ast [] with
  | error e => rw [ht] at h; exact Except.noConfusion h
  | ok pr =>
    obtain ⟨s, p2⟩ := pr
    rw [ht] at h
    simp only [Except.ok.injEq] at h
    subst h
    obtain ⟨d, hd, ⟨bf, phf⟩, out, hq, hb, hout⟩ :=
      transformNodeS_inv ast [] s p2 ht
    simp only at hb
    subst hb
    simp only [List.nil_append] at hd
    subst hd
    show scanChars s.data = _
    unfold scanChars
    rw [hq]
    simpa using hout

theorem sql_placeholder_invariant_witness :
    toSqlFilter (QastNode.logical .AND
        (.comparison "age" .gt (.prim (.num ⟨false, 30, []⟩)))
        (.comparison "name" .eq (.prim (.str "John")))) =
      .ok ⟨"(\"age\" > $1 AND \"name\" = $2)",
        [.prim (.num ⟨false, 30, []⟩), .prim (.str "John")]⟩ ∧
    scanPlaceholders (SqlFilter.mk "(\"age\" > $1 AND \"name\" = $2)"
        [.prim (.num ⟨false, 30, []⟩), .prim (.str "John")]).text =
      List.range' 1 (SqlFilter.mk "(\"age\" > $1 AND \"name\" = $2)"
        [.prim (.num ⟨false, 30, []⟩), .prim (.str "John")]).params.length :=
  ⟨rfl, sql_placeholder_invariant (QastNode.logical .AND
      (.comparison "age" .gt (.prim (.num ⟨false, 30, []⟩)))
      (.comparison "name" .eq (.prim (.str "John")))) _ rfl⟩

end Qast
